import Mathlib

/-!
# Verification of the Goodluck Sharing transfer & discovery engine

A shallow embedding of the transfer/discovery core of the repository
(`goodluck_sharing.py`, in its two revisions: the top-level file and the
copy under `Goodluck Sharing app/`), together with theorems settling the
frozen claims about its specification.

Conventions of the embedding:
* Python `str` values (paths, names, hex digests, wire text) are modelled
  as `List Char`; Lean's `Char` is a unicode scalar value, matching a
  well-formed Python string.
* Raw bytes on the wire are modelled as `List Nat` (each entry `< 256`
  where it matters).
* SHA-256 itself is treated as an opaque parameter `H : List Nat → List Char`
  of the receive session: the claims depend only on how its hex digest is
  compared and stored, never on the compression function.
-/

namespace GoodluckSharing

/-- Python strings (unicode scalar sequences). -/
abbrev PyStr := List Char

/-- Raw bytes. -/
abbrev Bytes := List Nat

/-! ## Path handling

`os.path.basename` in POSIX form: the part of the path after the last `'/'`.
(The receivers feed it declared *relative* names from the wire.) -/

/-- `os.path.basename(p)`: the suffix of `p` after the last slash. -/
def basename (p : PyStr) : PyStr :=
  (p.reverse.takeWhile (fun c => c ≠ '/')).reverse

/-- `pathlib` join `Path(dest) / rel`: an absolute right operand replaces
`dest`, an empty right operand is dropped, otherwise the parts are joined
with a separator. -/
def pathJoin (dest rel : PyStr) : PyStr :=
  match rel with
  | [] => dest
  | c :: _ => if c = '/' then rel else dest ++ '/' :: rel

/-- Save path computed by the receiver in `src/goodluck_sharing.py`
(`_handle_incoming_transfer`): `safe_path = os.path.basename(relative_path)`
then `Path(download_dir) / safe_path`. -/
def savePathMain (dest rel : PyStr) : PyStr :=
  pathJoin dest (basename rel)

/-- Save path computed by the receiver in
`src/Goodluck Sharing app/goodluck_sharing.py` (`_handle_incoming_transfer`):
`Path(download_dir) / relative_path`, with no sanitization. -/
def savePathApp (dest rel : PyStr) : PyStr :=
  pathJoin dest rel

/-- A path that lies *directly inside* a destination directory: the join of
the destination with one nonempty, separator-free name component that is
neither `.` nor `..`. -/
def DirectlyInside (dest p : PyStr) : Prop :=
  ∃ n : PyStr, n ≠ [] ∧ '/' ∉ n ∧ n ≠ ['.'] ∧ n ≠ ['.', '.'] ∧
    p = dest ++ '/' :: n

/-! ## DuplicateManager

`DuplicateManager.file_hashes` is a `defaultdict(list)` mapping
`f"{file_hash}_{os.path.basename(file_path)}"` to a list of entry dicts.
Both revisions have identical `add_file_hash` / `is_duplicate` bodies
(the top-level revision merely wraps them in a lock). -/

/-- One entry dict of the duplicate store. -/
structure DupEntry where
  path : PyStr
  hash : PyStr
  peer : PyStr
  timestamp : PyStr
deriving DecidableEq

/-- The `file_hashes` map, total with default `[]` (`defaultdict(list)`). -/
abbrev DupStore := PyStr → List DupEntry

/-- Store key: `f"{file_hash}_{os.path.basename(file_path)}"`. -/
def dupKey (fileHash filePath : PyStr) : PyStr :=
  fileHash ++ '_' :: basename filePath

/-- `DuplicateManager.add_file_hash`: append the entry under the key and
keep only the most recent 1000 entries of that key (`[-1000:]`), leaving
every other key untouched. -/
def addFileHash (store : DupStore) (filePath fileHash peerIp now : PyStr) :
    DupStore :=
  fun k =>
    if k = dupKey fileHash filePath then
      let l := store (dupKey fileHash filePath) ++
        [⟨filePath, fileHash, peerIp, now⟩]
      if 1000 < l.length then l.drop (l.length - 1000) else l
    else store k

/-- The `for entry in self.file_hashes.get(key, [])` scan of
`is_duplicate`: first entry with identical hash and peer. -/
def findDup (fileHash peerIp : PyStr) : List DupEntry → Option DupEntry
  | [] => none
  | e :: rest =>
      if e.hash = fileHash ∧ e.peer = peerIp then some e
      else findDup fileHash peerIp rest

/-- `DuplicateManager.is_duplicate`: `(True, entry)` on the first entry
under the key with identical hash and peer, else `(False, None)`. -/
def isDuplicate (store : DupStore) (filePath fileHash peerIp : PyStr) :
    Bool × Option DupEntry :=
  match findDup fileHash peerIp (store (dupKey fileHash filePath)) with
  | some e => (true, some e)
  | none => (false, none)

/-! ## Transfer history (`_add_history`, top-level revision)

`self.history.append(record)` followed by truncation to the most recent
2000 records (`[-2000:]`) whenever the length exceeds 2000, then a
best-effort save to disk. Records are modelled opaquely. -/

/-- `_add_history` on the in-memory list (top-level revision, cap 2000). -/
def addHistory {α : Type} (history : List α) (record : α) : List α :=
  if 2000 < (history ++ [record]).length then
    (history ++ [record]).drop ((history ++ [record]).length - 2000)
  else history ++ [record]

/-! ## Wire framing: metadata phase

`_receive_all(connection, n)` blocks until exactly `n` bytes are obtained
or the connection closes early (returning `None`).  The connection is
modelled as the list of bytes it will deliver before closing. -/

/-- `_receive_all`: exactly `n` bytes, or `none` when the connection
closes first. -/
def receiveAll (n : Nat) (stream : Bytes) : Option (Bytes × Bytes) :=
  if n ≤ stream.length then some (stream.take n, stream.drop n) else none

/-- `struct.unpack('!I', header)[0]`: big-endian 32-bit decode. -/
def be32ToNat (b : Bytes) : Nat :=
  b.foldl (fun acc c => acc * 256 + c) 0

/-- `struct.pack('!I', L)` for `L < 2^32`: big-endian 32-bit encode. -/
def natToBe32 (L : Nat) : Bytes :=
  [L / 2 ^ 24 % 256, L / 2 ^ 16 % 256, L / 2 ^ 8 % 256, L % 256]

/-- Failure modes of the metadata phase (each raised as a `RuntimeError`
or surfaced by the enclosing `except`, aborting the session). -/
inductive MetaErr where
  | noHeader
  | tooLarge
  | truncated
deriving DecidableEq

/-- Metadata phase of `_handle_incoming_transfer` in
`src/goodluck_sharing.py`: 4-byte big-endian length, a 10 MiB ceiling
checked *before* the body is read, then the metadata body. -/
def readMetaMain (stream : Bytes) : Except MetaErr (Bytes × Bytes) :=
  match receiveAll 4 stream with
  | none => .error .noHeader
  | some (header, rest) =>
      if 10 * 1024 * 1024 < be32ToNat header then .error .tooLarge
      else
        match receiveAll (be32ToNat header) rest with
        | none => .error .truncated
        | some (body, rest') => .ok (body, rest')

/-- Metadata phase of `_handle_incoming_transfer` in
`Goodluck Sharing app/goodluck_sharing.py`: same framing with no ceiling —
the declared length is passed straight to `_receive_all`. -/
def readMetaApp (stream : Bytes) : Except MetaErr (Bytes × Bytes) :=
  match receiveAll 4 stream with
  | none => .error .noHeader
  | some (header, rest) =>
      match receiveAll (be32ToNat header) rest with
      | none => .error .truncated
      | some (body, rest') => .ok (body, rest')

/-! ## Receive session: the per-file loop

Per-file phase of `_handle_incoming_transfer` (top-level revision; the app
revision differs only in chunk size and UI calls).  `recv(n)` on the
modelled connection yields `min n remaining` bytes; an empty result means
the peer closed.  SHA-256 is an opaque digest parameter `H`. -/

/-- `CHUNK_SIZE` of the top-level revision (512 KiB). -/
def CHUNK_SIZE : Nat := 512 * 1024

/-- One declared file of a decoded manifest, as the receiver reads it. -/
structure FileInfo where
  rel : PyStr
  size : Nat
  sha256 : Option PyStr
deriving DecidableEq

/-- The receiver's inner loop for one file: repeatedly
`chunk = connection.recv(min(CHUNK_SIZE, file_size - received_for_file))`,
stopping at the declared size or as soon as the connection closes
(`if not chunk: break`).  Returns the bytes obtained for this file and the
remaining stream. -/
def recvFile (size : Nat) (stream : Bytes) : Bytes × Bytes :=
  match size, stream with
  | 0, s => ([], s)
  | _ + 1, [] => ([], [])
  | n + 1, b :: rest =>
      let want := min CHUNK_SIZE (n + 1)
      let chunk := (b :: rest).take want
      let res := recvFile (n + 1 - chunk.length) ((b :: rest).drop want)
      (chunk ++ res.1, res.2)
termination_by stream.length
decreasing_by
  simp only [List.length_drop, List.length_cons]
  have hc : 0 < CHUNK_SIZE := by norm_num [CHUNK_SIZE]
  omega

/-- Receiver-side state threaded through the per-file loop. -/
structure RecvState where
  stream : Bytes
  written : List (PyStr × Bytes)
  verified : Nat
  store : DupStore
  processed : Nat

/-- Python truthiness plus case-insensitive comparison:
`expected_hash and actual_hash.lower() == expected_hash.lower()`. -/
def digestMatches (actual : PyStr) (expected : Option PyStr) : Bool :=
  match expected with
  | none => false
  | some e =>
      decide (e ≠ []) &&
        decide (actual.map Char.toLower = e.map Char.toLower)

/-- Processing of one manifest entry by the top-level
`_handle_incoming_transfer`: sanitize the declared name, receive up to the
declared size, verify the digest; a match bumps `verified_count` and
records a `DuplicateStore` entry for the receiver-side path and peer; in
every case the written file is kept and `files_completed` advances.  (The
overwrite-prompt branch of this revision never sets `overwrite_policy`, so
it has no state effect; the advisory `is_duplicate` lookup only logs.) -/
def processFile (H : Bytes → PyStr) (now : PyStr) (dest peer : PyStr)
    (st : RecvState) (fi : FileInfo) : RecvState :=
  let savePath := savePathMain dest fi.rel
  let res := recvFile fi.size st.stream
  let actual := H res.1
  if digestMatches actual fi.sha256 then
    { stream := res.2
      written := st.written ++ [(savePath, res.1)]
      verified := st.verified + 1
      store := addFileHash st.store savePath actual peer now
      processed := st.processed + 1 }
  else
    { stream := res.2
      written := st.written ++ [(savePath, res.1)]
      verified := st.verified
      store := st.store
      processed := st.processed + 1 }

/-- The `for file_info in files:` loop of the receive session. -/
def processFiles (H : Bytes → PyStr) (now : PyStr) (dest peer : PyStr)
    (st : RecvState) (files : List FileInfo) : RecvState :=
  files.foldl (processFile H now dest peer) st

/-! ## Pause semantics

The global pause flag is only ever consulted by the sender
(`_perform_send`: `while self.transfer_paused: time.sleep(0.1)` between
chunks).  The receive loops of both revisions contain no reference to the
flag. -/

/-- Sender-side state of `_perform_send`'s chunk loop (app revision). -/
structure SendTick where
  toSend : Bytes
  sent : Bytes
  totalSent : Nat
  connOpen : Bool
deriving DecidableEq

/-- One iteration of the sender's chunk loop: a paused iteration is a pure
`time.sleep(0.1)` — nothing moves and the socket stays open; otherwise up
to 128 KiB are read from the file and sent. -/
def senderTick (paused : Bool) (st : SendTick) : SendTick :=
  if paused then st
  else
    { toSend := st.toSend.drop (128 * 1024)
      sent := st.sent ++ st.toSend.take (128 * 1024)
      totalSent := st.totalSent + (st.toSend.take (128 * 1024)).length
      connOpen := st.connOpen }

/-- Receiver-side state of the per-file chunk loop. -/
structure RecvTick where
  stream : Bytes
  wanted : Nat
  bytesCompleted : Nat
deriving DecidableEq

/-- One iteration of the receiver's chunk loop
(`_handle_incoming_transfer`, both revisions).  The loop body contains no
pause check, so the `paused` argument is never consulted. -/
def receiverTick (paused : Bool) (st : RecvTick) : RecvTick :=
  { stream := st.stream.drop (min CHUNK_SIZE st.wanted)
    wanted := st.wanted - (st.stream.take (min CHUNK_SIZE st.wanted)).length
    bytesCompleted :=
      st.bytesCompleted + (st.stream.take (min CHUNK_SIZE st.wanted)).length }

/-! ## JSON: `json.dumps` / `json.loads`

The wire metadata and the discovery payloads are built with `json.dumps`
(default arguments: `ensure_ascii=True`, separators `', '` and `': '`) and
read back with `json.loads`.  `Json` covers the value shapes this protocol
ever serializes (strings, non-negative integers, arrays, objects);
booleans, `null`, floats and negative numbers never occur in the
repository's messages and are omitted, so the model's parser rejects them
where `json.loads` would accept. -/

/-- JSON values exchanged by this protocol. -/
inductive Json where
  | str (s : PyStr)
  | num (n : Nat)
  | arr (xs : List Json)
  | obj (fields : List (PyStr × Json))

/-- Lowercase hex digit, as `json.dumps` emits in `\uXXXX` escapes. -/
def hexDig (n : Nat) : Char :=
  Char.ofNat (if n < 10 then 48 + n else 87 + n)

/-- Four lowercase hex digits of `n < 0x10000`. -/
def hex4 (n : Nat) : PyStr :=
  [hexDig (n / 4096 % 16), hexDig (n / 256 % 16), hexDig (n / 16 % 16),
   hexDig (n % 16)]

/-- `json.dumps` escaping of one character (`ensure_ascii=True`): the seven
short escapes, `\u00XX` for other controls, printable ASCII verbatim, and
`\uXXXX` (with a surrogate pair above the BMP) for everything else. -/
def escapeChar (c : Char) : PyStr :=
  if c = '"' then ['\\', '"']
  else if c = '\\' then ['\\', '\\']
  else if c.toNat = 8 then ['\\', 'b']
  else if c.toNat = 12 then ['\\', 'f']
  else if c.toNat = 10 then ['\\', 'n']
  else if c.toNat = 13 then ['\\', 'r']
  else if c.toNat = 9 then ['\\', 't']
  else if c.toNat < 32 then '\\' :: 'u' :: hex4 c.toNat
  else if c.toNat < 127 then [c]
  else if c.toNat < 65536 then '\\' :: 'u' :: hex4 c.toNat
  else ('\\' :: 'u' :: hex4 (55296 + (c.toNat - 65536) / 1024)) ++
    ('\\' :: 'u' :: hex4 (56320 + (c.toNat - 65536) % 1024))

/-- A serialized JSON string: quote, escaped characters, quote. -/
def dumpString (s : PyStr) : PyStr :=
  '"' :: (s.map escapeChar).flatten ++ ['"']

/-- Decimal digits of `n`, most significant first (`fuel`-structured so the
definition computes; `natToDec` supplies ample fuel). -/
def natToDecAux : Nat → Nat → PyStr
  | 0, _ => []
  | f + 1, n =>
      if n < 10 then [Char.ofNat (48 + n)]
      else natToDecAux f (n / 10) ++ [Char.ofNat (48 + n % 10)]

/-- Decimal representation of a natural number. -/
def natToDec (n : Nat) : PyStr := natToDecAux (n + 1) n

mutual
/-- `json.dumps` with the default separators `', '` and `': '`. -/
def dumps : Json → PyStr
  | .str s => dumpString s
  | .num n => natToDec n
  | .arr xs => '[' :: dumpsItems xs ++ [']']
  | .obj kvs => '\x7b' :: dumpsMembers kvs ++ ['\x7d']

/-- Array items joined by `', '`. -/
def dumpsItems : List Json → PyStr
  | [] => []
  | [x] => dumps x
  | x :: y :: rest => dumps x ++ ',' :: ' ' :: dumpsItems (y :: rest)

/-- Object members `key: value` joined by `', '`. -/
def dumpsMembers : List (PyStr × Json) → PyStr
  | [] => []
  | [(k, v)] => dumpString k ++ ':' :: ' ' :: dumps v
  | (k, v) :: m :: rest =>
      dumpString k ++ ':' :: ' ' :: dumps v ++ ',' :: ' ' ::
        dumpsMembers (m :: rest)
end

/-- JSON whitespace skipping (space, tab, LF, CR), as `json.loads` applies
between tokens. -/
def skipWs : PyStr → PyStr
  | c :: rest =>
      if c = ' ' ∨ c.toNat = 9 ∨ c.toNat = 10 ∨ c.toNat = 13 then skipWs rest
      else c :: rest
  | [] => []

/-- Value of one hex digit (both cases accepted, as in `json.loads`). -/
def hexVal (c : Char) : Option Nat :=
  if 48 ≤ c.toNat ∧ c.toNat ≤ 57 then some (c.toNat - 48)
  else if 97 ≤ c.toNat ∧ c.toNat ≤ 102 then some (c.toNat - 87)
  else if 65 ≤ c.toNat ∧ c.toNat ≤ 70 then some (c.toNat - 55)
  else none

/-- Read four hex digits of a `\uXXXX` escape. -/
def readHex4 : PyStr → Option (Nat × PyStr)
  | a :: b :: c :: d :: rest =>
      match hexVal a, hexVal b, hexVal c, hexVal d with
      | some va, some vb, some vc, some vd =>
          some (va * 4096 + vb * 256 + vc * 16 + vd, rest)
      | _, _, _, _ => none
  | _ => none

/-- ASCII decimal digit test. -/
def isDigitChar (c : Char) : Bool := decide (48 ≤ c.toNat ∧ c.toNat ≤ 57)

/-- Consume a run of decimal digits, folding the value onto `acc`. -/
def parseDigits : PyStr → Nat → (Nat × PyStr)
  | [], acc => (acc, [])
  | c :: rest, acc =>
      if isDigitChar c then parseDigits rest (acc * 10 + (c.toNat - 48))
      else (acc, c :: rest)

/-- Parse a non-negative integer literal (the only number shape this
protocol serializes). -/
def parseNum : PyStr → Option (Nat × PyStr)
  | c :: rest =>
      if isDigitChar c then some (parseDigits rest (c.toNat - 48)) else none
  | [] => none

/-- Decode one `\uXXXX` escape (the four hex digits after `\u`),
recombining a high+low surrogate pair into one code point exactly as
`json.loads` does.  An unpaired surrogate escape is rejected: Python
would build a lone-surrogate string with no well-formed-unicode
counterpart (this protocol's encoder never emits one). -/
def parseUEscape (s : PyStr) : Option (Nat × PyStr) :=
  match readHex4 s with
  | none => none
  | some (n1, rest3) =>
      if 55296 ≤ n1 ∧ n1 < 56320 then
        match rest3 with
        | b :: u :: rest4 =>
            if b = '\\' ∧ u = 'u' then
              match readHex4 rest4 with
              | none => none
              | some (n2, rest5) =>
                  if 56320 ≤ n2 ∧ n2 < 57344 then
                    some (65536 + (n1 - 55296) * 1024 + (n2 - 56320), rest5)
                  else none
            else none
        | _ => none
      else if 56320 ≤ n1 ∧ n1 < 57344 then none
      else some (n1, rest3)

/-- The next input character, if any, is not a decimal digit (how a JSON
number literal ends). -/
def headNotDigit : PyStr → Prop
  | [] => True
  | c :: _ => isDigitChar c = false

/-- Parse a JSON string body (after the opening quote) up to the closing
quote, decoding escapes. -/
def parseStringBody : Nat → PyStr → Option (PyStr × PyStr)
  | 0, _ => none
  | _ + 1, [] => none
  | f + 1, c :: rest =>
      if c = '"' then some ([], rest)
      else if c = '\\' then
        match rest with
        | [] => none
        | e :: rest2 =>
            if e = '"' then
              (parseStringBody f rest2).map fun r => ('"' :: r.1, r.2)
            else if e = '\\' then
              (parseStringBody f rest2).map fun r => ('\\' :: r.1, r.2)
            else if e = '/' then
              (parseStringBody f rest2).map fun r => ('/' :: r.1, r.2)
            else if e = 'b' then
              (parseStringBody f rest2).map fun r => (Char.ofNat 8 :: r.1, r.2)
            else if e = 'f' then
              (parseStringBody f rest2).map fun r => (Char.ofNat 12 :: r.1, r.2)
            else if e = 'n' then
              (parseStringBody f rest2).map fun r => (Char.ofNat 10 :: r.1, r.2)
            else if e = 'r' then
              (parseStringBody f rest2).map fun r => (Char.ofNat 13 :: r.1, r.2)
            else if e = 't' then
              (parseStringBody f rest2).map fun r => (Char.ofNat 9 :: r.1, r.2)
            else if e = 'u' then
              match parseUEscape rest2 with
              | none => none
              | some (n1, rest3) =>
                  (parseStringBody f rest3).map fun r =>
                    (Char.ofNat n1 :: r.1, r.2)
            else none
      else (parseStringBody f rest).map fun r => (c :: r.1, r.2)

mutual
/-- Parse one JSON value (fuelled recursive descent, mirroring the shapes
`json.loads` meets in this protocol). -/
def parseVal : Nat → PyStr → Option (Json × PyStr)
  | 0, _ => none
  | f + 1, s =>
      match skipWs s with
      | [] => none
      | c :: rest =>
          if c = '"' then
            (parseStringBody (rest.length + 1) rest).map fun r =>
              (.str r.1, r.2)
          else if c = '[' then
            (parseItems f rest).map fun r => (.arr r.1, r.2)
          else if c = '\x7b' then
            (parseMembers f rest).map fun r => (.obj r.1, r.2)
          else if isDigitChar c then
            (parseNum (c :: rest)).map fun r => (.num r.1, r.2)
          else none

/-- Parse array items after `[`, handling `]` and `', '` separators. -/
def parseItems : Nat → PyStr → Option (List Json × PyStr)
  | 0, _ => none
  | f + 1, s =>
      match skipWs s with
      | [] => none
      | c :: rest =>
          if c = ']' then some ([], rest)
          else
            match parseVal f (c :: rest) with
            | none => none
            | some (v, s2) =>
                match skipWs s2 with
                | ',' :: s3 => (parseItems f s3).map fun r => (v :: r.1, r.2)
                | ']' :: s3 => some ([v], s3)
                | _ => none

/-- Parse object members after the opening brace. -/
def parseMembers : Nat → PyStr → Option (List (PyStr × Json) × PyStr)
  | 0, _ => none
  | f + 1, s =>
      match skipWs s with
      | [] => none
      | c :: rest =>
          if c = '\x7d' then some ([], rest)
          else if c = '"' then
            match parseStringBody (rest.length + 1) rest with
            | none => none
            | some (k, s2) =>
                match skipWs s2 with
                | ':' :: s3 =>
                    match parseVal f s3 with
                    | none => none
                    | some (v, s4) =>
                        match skipWs s4 with
                        | ',' :: s5 =>
                            (parseMembers f s5).map fun r =>
                              ((k, v) :: r.1, r.2)
                        | '\x7d' :: s5 => some ([(k, v)], s5)
                        | _ => none
                | _ => none
          else none
end

/-- `json.loads`: parse one value and require the remainder to be
whitespace only (otherwise Python raises "Extra data"). -/
def loads (s : PyStr) : Option Json :=
  match parseVal (2 * s.length + 2) s with
  | some (v, rest) => if skipWs rest = [] then some v else none
  | none => none

/-! ## Wire manifest: encode (`_perform_send`) and decode
(`_handle_incoming_transfer`, app revision) -/

/-- One entry of the sender-side manifest
(`{'rel': ..., 'size': ..., 'sha256': ...}`). -/
structure FileDesc where
  rel : PyStr
  size : Nat
  sha256 : PyStr
deriving DecidableEq

/-- The JSON object `_perform_send` builds per file. -/
def fileJson (f : FileDesc) : Json :=
  .obj [("rel".data, .str f.rel), ("size".data, .num f.size),
    ("sha256".data, .str f.sha256)]

/-- The metadata dict
`{'file_count': len(files), 'files': [...]}` of `_perform_send`. -/
def manifestJson (files : List FileDesc) : Json :=
  .obj [("file_count".data, .num files.length),
    ("files".data, .arr (files.map fileJson))]

/-- `struct.pack('!I', len(metadata_bytes)) + metadata_bytes`
(`struct.pack` raises above `2^32`, modelled as `none`). -/
def encodeManifest (files : List FileDesc) : Option Bytes :=
  let payload := (dumps (manifestJson files)).map Char.toNat
  if payload.length < 2 ^ 32 then some (natToBe32 payload.length ++ payload)
  else none

/-- `bytes.decode('utf-8')`, restricted to the ASCII plane — everything
`json.dumps` with `ensure_ascii` can produce.  Multi-byte UTF-8 input
(which this protocol's encoder never sends) is not decoded. -/
def utf8DecodeAscii (b : Bytes) : Option PyStr :=
  if b.all (fun n => n < 128) then some (b.map Char.ofNat) else none

/-- Python truthiness of a decoded JSON value. -/
def truthy : Json → Bool
  | .str s => !s.isEmpty
  | .num n => decide (n ≠ 0)
  | .arr xs => !xs.isEmpty
  | .obj kvs => !kvs.isEmpty

/-- `dict.get(key)` on a decoded object: Python builds the dict by
successive assignment, so the *last* occurrence of a duplicated key
wins. -/
def dictGet (fields : List (PyStr × Json)) (key : PyStr) : Option Json :=
  match fields with
  | [] => none
  | (k, v) :: rest =>
      match dictGet rest key with
      | some r => some r
      | none => if k = key then some v else none

/-- Python `a or b` on optional JSON values (`none` is Python `None`,
which is falsy): the left value when truthy, otherwise the right
operand as-is. -/
def pyOr (a b : Option Json) : Option Json :=
  match a with
  | some x => if truthy x then some x else b
  | none => b

/-- The app receiver's name extraction:
`file_info.get('rel') or file_info.get('relative_path') or
file_info.get('name')` — note the chain ends with a plain `get`, so a
falsy or absent final operand passes through. -/
def relLookupApp (fields : List (PyStr × Json)) : Option Json :=
  pyOr (dictGet fields "rel".data)
    (pyOr (dictGet fields "relative_path".data) (dictGet fields "name".data))

/-- `file_info.get('size', 0)`: absent means 0; a non-numeric size would
make the receive loop's byte arithmetic raise, modelled as failure. -/
def sizeLookup (fields : List (PyStr × Json)) : Option Nat :=
  match dictGet fields "size".data with
  | some (.num n) => some n
  | none => some 0
  | some _ => none

/-- `file_info.get('sha256')`: absent means no verification; a non-string
digest would raise at `.lower()`, modelled as failure. -/
def shaLookup (fields : List (PyStr × Json)) : Option (Option PyStr) :=
  match dictGet fields "sha256".data with
  | some (.str s) => some (some s)
  | none => some none
  | some _ => none

/-- Decode one manifest entry the way the app receiver reads it; `none`
models the session-aborting exception (`Path(dest) / None` raises
`TypeError` when the name chain yields `None`, and a non-string name
likewise). -/
def decodeFileApp (fields : List (PyStr × Json)) : Option FileInfo :=
  match relLookupApp fields with
  | some (.str s) =>
      match sizeLookup fields, shaLookup fields with
      | some n, some h => some ⟨s, n, h⟩
      | _, _ => none
  | _ => none

/-- Decode the metadata body of the app receiver: UTF-8 decode,
`json.loads`, `metadata.get('files', [])`, then the per-entry field
extraction of the receive loop. -/
def decodeManifestApp (body : Bytes) : Option (List FileInfo) :=
  match utf8DecodeAscii body with
  | none => none
  | some s =>
      match loads s with
      | some (.obj fields) =>
          match dictGet fields "files".data with
          | some (.arr xs) =>
              xs.mapM fun x =>
                match x with
                | .obj f => decodeFileApp f
                | _ => none
          | none => some []
          | some _ => none
      | _ => none

/-- Full wire decode of the app receiver: metadata framing, then manifest
decoding. -/
def decodeWire (stream : Bytes) : Option (List FileInfo) :=
  match readMetaApp stream with
  | .ok (body, _) => decodeManifestApp body
  | .error _ => none

/-! ## Discovery listeners

The app revision (`udp_discovery_listener`) speaks the tagged
announce/response protocol; the top-level revision
(`_discovery_listener`) records the sender of any JSON datagram and never
replies. -/

/-- Peer table `self.discovered_devices` (ip → stored name value). -/
abbrev PeerTable := PyStr → Option Json

/-- `self.discovered_devices[addr[0]] = device_name`. -/
def updateTable (t : PeerTable) (ip : PyStr) (v : Json) : PeerTable :=
  fun k => if k = ip then some v else t k

/-- `msg.startswith(pre)`. -/
def hasPrefix (pre s : PyStr) : Bool := decide (s.take pre.length = pre)

/-- The announce tag. -/
def discoveryPrefix : PyStr := "GOODLUCK_DISCOVERY:".data

/-- The response tag. -/
def responsePrefix : PyStr := "GOODLUCK_RESPONSE:".data

/-- One datagram step of the app revision's `udp_discovery_listener`:
returns the updated peer table and the datagrams sent in reply.  On an
announcement the sender is recorded only when the datagram does not come
from the listener's own IP, but the response is sent unconditionally; on a
response the sender is recorded under the same self-check and nothing is
sent; malformed payloads are dropped. -/
def handleDatagramApp (ownIp devName : PyStr) (table : PeerTable)
    (addr msg : PyStr) : PeerTable × List (PyStr × PyStr) :=
  if hasPrefix discoveryPrefix msg then
    match loads (msg.drop discoveryPrefix.length) with
    | some (.obj fields) =>
        let deviceName := (dictGet fields "name".data).getD (.str "Unknown".data)
        ((if addr = ownIp then table else updateTable table addr deviceName),
         [(addr, responsePrefix ++ dumps (.obj [("name".data, .str devName)]))])
    | _ => (table, [])
  else if hasPrefix responsePrefix msg then
    match loads (msg.drop responsePrefix.length) with
    | some (.obj fields) =>
        let deviceName := (dictGet fields "name".data).getD (.str "Unknown".data)
        ((if addr = ownIp then table else updateTable table addr deviceName), [])
    | _ => (table, [])
  else (table, [])

/-- One datagram step of the top-level `_discovery_listener`: any JSON
object datagram records the sender (even the listener itself) under
`device_info.get('name', f'Unknown-{addr[0]}')`; nothing is ever sent
back. -/
def handleDatagramMain (table : PeerTable) (addr msg : PyStr) :
    PeerTable × List (PyStr × PyStr) :=
  match loads msg with
  | some (.obj fields) =>
      (updateTable table addr ((dictGet fields "name".data).getD
        (.str ("Unknown-".data ++ addr))), [])
  | _ => (table, [])

/-! ### Helper lemmas -/

/-- The chunked receive loop obtains exactly the declared size when the
stream suffices, and everything remaining when the peer closes early. -/
theorem recvFile_eq (size : Nat) (stream : Bytes) :
    recvFile size stream = (stream.take size, stream.drop size) := by
  generalize hn : stream.length = n
  induction n using Nat.strong_induction_on generalizing size stream with
  | _ n ih =>
    match size, stream with
    | 0, s => simp [recvFile]
    | m + 1, [] => simp [recvFile]
    | m + 1, b :: rest =>
        rw [recvFile]
        have hc : 0 < CHUNK_SIZE := by norm_num [CHUNK_SIZE]
        have hw1 : 1 ≤ min CHUNK_SIZE (m + 1) := by omega
        have hw2 : min CHUNK_SIZE (m + 1) ≤ m + 1 := Nat.min_le_right _ _
        set s := b :: rest with hs
        set want := min CHUNK_SIZE (m + 1) with hwant
        have hslen : 0 < s.length := by simp [hs]
        have hrec := ih ((s.drop want).length)
          (by rw [← hn]; simp [List.length_drop]; omega)
          (m + 1 - (s.take want).length) (s.drop want) rfl
        simp only [hrec]
        by_cases hcase : s.length ≤ want
        · have htake : s.take want = s := List.take_of_length_le hcase
          have hdrop : s.drop want = [] := List.drop_of_length_le hcase
          have hlen1 : s.length ≤ m + 1 := le_trans hcase hw2
          rw [htake, hdrop]
          simp [List.take_of_length_le hlen1, List.drop_of_length_le hlen1]
        · push_neg at hcase
          have hlen : (s.take want).length = want := by
            simp [List.length_take]; omega
          rw [hlen]
          rw [Prod.mk.injEq]
          constructor
          · rw [← List.take_add]
            congr 1
            omega
          · rw [List.drop_drop]
            congr 1
            omega

/-- `struct.pack('!I', L)` followed by `struct.unpack('!I', ...)` is the
identity below `2^32`. -/
theorem be32_roundtrip (L : Nat) (h : L < 2 ^ 32) :
    be32ToNat (natToBe32 L) = L := by
  simp only [natToBe32, be32ToNat, List.foldl]
  norm_num
  omega

/-- With a truthy (nonempty) declared digest, `digestMatches` is exactly
the case-insensitive digest comparison. -/
theorem digestMatches_some_iff (a e : PyStr) (hne : e ≠ []) :
    digestMatches a (some e) = true ↔
      a.map Char.toLower = e.map Char.toLower := by
  simp [digestMatches, hne]

/-- `processFile` with the receive loop resolved to take/drop form. -/
theorem processFile_def (H : Bytes → PyStr) (now dest peer : PyStr)
    (st : RecvState) (fi : FileInfo) :
    processFile H now dest peer st fi =
      if digestMatches (H (st.stream.take fi.size)) fi.sha256 then
        { stream := st.stream.drop fi.size
          written := st.written ++
            [(savePathMain dest fi.rel, st.stream.take fi.size)]
          verified := st.verified + 1
          store := addFileHash st.store (savePathMain dest fi.rel)
            (H (st.stream.take fi.size)) peer now
          processed := st.processed + 1 }
      else
        { stream := st.stream.drop fi.size
          written := st.written ++
            [(savePathMain dest fi.rel, st.stream.take fi.size)]
          verified := st.verified
          store := st.store
          processed := st.processed + 1 } := by
  unfold processFile
  rw [recvFile_eq]

/-- The app-revision metadata phase succeeds on any well-framed stream:
a 4-byte header followed by a body of exactly the declared length —
with no ceiling on that length. -/
theorem readMetaApp_ok (header body rest : Bytes) (hh : header.length = 4)
    (hb : body.length = be32ToNat header) :
    readMetaApp (header ++ (body ++ rest)) = .ok (body, rest) := by
  have h1 : receiveAll 4 (header ++ (body ++ rest)) =
      some (header, body ++ rest) := by
    unfold receiveAll
    rw [if_pos (by rw [List.length_append, hh]; omega)]
    rw [List.take_append_of_le_length (by omega),
      List.drop_append_of_le_length (by omega), ← hh, List.take_length,
      List.drop_length, List.nil_append]
  have h2 : receiveAll (be32ToNat header) (body ++ rest) =
      some (body, rest) := by
    unfold receiveAll
    rw [if_pos (by rw [List.length_append]; omega)]
    rw [← hb, List.take_append_of_le_length (by omega),
      List.drop_append_of_le_length (by omega), List.take_length,
      List.drop_length, List.nil_append]
  unfold readMetaApp
  rw [h1]
  simp only [h2]

theorem takeWhile_append_cons (p : Char → Bool) (l₁ : PyStr) (c : Char)
    (l₂ : PyStr) (hc : p c = false) :
    (l₁ ++ c :: l₂).takeWhile p = l₁.takeWhile p := by
  induction l₁ with
  | nil => simp [List.takeWhile, hc]
  | cons a l ih =>
      simp only [List.cons_append, List.takeWhile]
      cases p a <;> simp [ih]

theorem basename_append (d r : PyStr) :
    basename (d ++ '/' :: r) = basename r := by
  unfold basename
  rw [List.reverse_append, List.reverse_cons, List.append_assoc,
    List.singleton_append, takeWhile_append_cons _ _ _ _ (by decide)]

theorem basename_no_slash (r : PyStr) : '/' ∉ basename r := by
  intro h
  unfold basename at h
  rw [List.mem_reverse] at h
  have := List.mem_takeWhile_imp h
  simp at this

theorem findDup_eq_none (fileHash peerIp : PyStr) (l : List DupEntry) :
    findDup fileHash peerIp l = none ↔
      ∀ e ∈ l, ¬(e.hash = fileHash ∧ e.peer = peerIp) := by
  induction l with
  | nil => simp [findDup]
  | cons e rest ih =>
      by_cases h : e.hash = fileHash ∧ e.peer = peerIp
      · simp [findDup, h]
      · simp only [findDup, if_neg h, ih, List.mem_cons]
        constructor
        · intro hall f hf
          rcases hf with hf | hf
          · subst hf; tauto
          · exact hall f hf
        · intro hall f hf
          exact hall f (Or.inr hf)

theorem findDup_eq_some (fileHash peerIp : PyStr) (l : List DupEntry)
    (e : DupEntry) (h : findDup fileHash peerIp l = some e) :
    e ∈ l ∧ e.hash = fileHash ∧ e.peer = peerIp := by
  induction l with
  | nil => simp [findDup] at h
  | cons x rest ih =>
      by_cases hx : x.hash = fileHash ∧ x.peer = peerIp
      · simp [findDup, hx] at h
        subst h
        exact ⟨List.mem_cons_self x rest, hx⟩
      · simp [findDup, hx] at h
        rcases ih h with ⟨hm, hh, hp⟩
        exact ⟨List.mem_cons_of_mem x hm, hh, hp⟩

/-! ### JSON lemmas: characters and hex -/

theorem charToNat_ofNat (n : Nat)
    (h : n < 55296 ∨ (57343 < n ∧ n < 1114112)) :
    (Char.ofNat n).toNat = n := by
  have hv : n.isValidChar := by
    rcases h with h | ⟨h1, h2⟩
    · exact Or.inl h
    · exact Or.inr ⟨h1, h2⟩
  rw [Char.ofNat, dif_pos hv]
  simp [Char.ofNatAux, Char.toNat, UInt32.toNat]

theorem char_toNat_lt (c : Char) : c.toNat < 1114112 := by
  rcases c.valid with h | ⟨_, h2⟩
  · exact Nat.lt_trans h (by norm_num)
  · exact h2

theorem char_not_surrogate (c : Char) :
    c.toNat < 55296 ∨ 57343 < c.toNat := by
  rcases c.valid with h | ⟨h1, _⟩
  · exact Or.inl h
  · exact Or.inr h1

theorem hexVal_hexDig (d : Nat) (hd : d < 16) :
    hexVal (hexDig d) = some d := by
  interval_cases d <;> decide

theorem readHex4_hex4 (n : Nat) (hn : n < 65536) (rest : PyStr) :
    readHex4 (hex4 n ++ rest) = some (n, rest) := by
  simp only [hex4, List.cons_append, List.nil_append, readHex4]
  rw [hexVal_hexDig _ (by omega), hexVal_hexDig _ (by omega),
    hexVal_hexDig _ (by omega), hexVal_hexDig _ (by omega)]
  simp only [Option.some.injEq, Prod.mk.injEq]
  exact ⟨by omega, trivial⟩

theorem skipWs_cons (c : Char) (r : PyStr) (h1 : ¬(c = ' '))
    (h2 : ¬(c.toNat = 9)) (h3 : ¬(c.toNat = 10)) (h4 : ¬(c.toNat = 13)) :
    skipWs (c :: r) = c :: r := by
  simp [skipWs, h1, h2, h3, h4]

theorem escapeChar_length_pos (c : Char) : 1 ≤ (escapeChar c).length := by
  unfold escapeChar
  repeat' split
  all_goals simp [hex4]

theorem flatten_escape_length (s : PyStr) :
    s.length ≤ ((s.map escapeChar).flatten).length := by
  induction s with
  | nil => simp
  | cons c cs ih =>
      simp only [List.map_cons, List.flatten_cons, List.length_append,
        List.length_cons]
      have := escapeChar_length_pos c
      omega

/-! ### JSON lemmas: the string body parser inverts `json.dumps`
escaping -/

theorem parseUEscape_bmp (t : Nat) (h1 : t < 65536)
    (h2 : ¬(55296 ≤ t ∧ t < 56320)) (h3 : ¬(56320 ≤ t ∧ t < 57344))
    (rest : PyStr) : parseUEscape (hex4 t ++ rest) = some (t, rest) := by
  simp [parseUEscape, readHex4_hex4 t h1 rest, h2, h3]

theorem parseUEscape_pair (hi lo : Nat) (hhi : 55296 ≤ hi ∧ hi < 56320)
    (hlo : 56320 ≤ lo ∧ lo < 57344) (rest : PyStr) :
    parseUEscape (hex4 hi ++ '\\' :: 'u' :: (hex4 lo ++ rest)) =
      some (65536 + (hi - 55296) * 1024 + (lo - 56320), rest) := by
  have hhex1 := readHex4_hex4 hi (by omega) ('\\' :: 'u' :: (hex4 lo ++ rest))
  have hhex2 := readHex4_hex4 lo (by omega) rest
  simp [parseUEscape, hhex1, hhex2, hhi, hlo]

theorem parseUEscape_surrogate (t : Nat) (h1 : 65536 ≤ t)
    (h2 : t < 1114112) (rest : PyStr) :
    parseUEscape (hex4 (55296 + (t - 65536) / 1024) ++ '\\' :: 'u' ::
      (hex4 (56320 + (t - 65536) % 1024) ++ rest)) = some (t, rest) := by
  have h := parseUEscape_pair (55296 + (t - 65536) / 1024)
    (56320 + (t - 65536) % 1024) (by omega) (by omega) rest
  rw [h]
  simp only [Option.some.injEq, Prod.mk.injEq]
  exact ⟨by omega, trivial⟩

theorem parseStringBody_uEscape (f : Nat) (rest2 : PyStr) :
    parseStringBody (f + 1) ('\\' :: 'u' :: rest2) =
      match parseUEscape rest2 with
      | none => none
      | some (n1, rest3) =>
          (parseStringBody f rest3).map fun r => (Char.ofNat n1 :: r.1, r.2) := by
  simp [parseStringBody]

theorem parseStringBody_escapes (s : PyStr) :
    ∀ fuel rest, s.length < fuel →
      parseStringBody fuel ((s.map escapeChar).flatten ++ '"' :: rest) =
        some (s, rest) := by
  induction s with
  | nil =>
      intro fuel rest hf
      obtain ⟨f, rfl⟩ : ∃ f, fuel = f + 1 := ⟨fuel - 1, by omega⟩
      simp [parseStringBody]
  | cons c cs ih =>
      intro fuel rest hf
      obtain ⟨f, rfl⟩ : ∃ f, fuel = f + 1 := ⟨fuel - 1, by omega⟩
      have hcs : cs.length < f := by
        simp only [List.length_cons] at hf
        omega
      have hrec := ih f rest hcs
      simp only [List.map_cons, List.flatten_cons, List.append_assoc]
      by_cases h1 : c = '"'
      · subst h1
        simp [escapeChar, parseStringBody, hrec]
      by_cases h2 : c = '\\'
      · subst h2
        simp [escapeChar, parseStringBody, hrec]
      by_cases h3 : c.toNat = 8
      · have hc : Char.ofNat 8 = c := by rw [← h3, Char.ofNat_toNat]
        simp [escapeChar, h1, h2, h3, parseStringBody, hrec]
        exact hc
      by_cases h4 : c.toNat = 12
      · have hc : Char.ofNat 12 = c := by rw [← h4, Char.ofNat_toNat]
        simp [escapeChar, h1, h2, h3, h4, parseStringBody, hrec]
        exact hc
      by_cases h5 : c.toNat = 10
      · have hc : Char.ofNat 10 = c := by rw [← h5, Char.ofNat_toNat]
        simp [escapeChar, h1, h2, h3, h4, h5, parseStringBody, hrec]
        exact hc
      by_cases h6 : c.toNat = 13
      · have hc : Char.ofNat 13 = c := by rw [← h6, Char.ofNat_toNat]
        simp [escapeChar, h1, h2, h3, h4, h5, h6, parseStringBody, hrec]
        exact hc
      by_cases h7 : c.toNat = 9
      · have hc : Char.ofNat 9 = c := by rw [← h7, Char.ofNat_toNat]
        simp [escapeChar, h1, h2, h3, h4, h5, h6, h7, parseStringBody, hrec]
        exact hc
      by_cases h8 : c.toNat < 32
      · have hu := parseUEscape_bmp c.toNat (by omega) (by omega) (by omega)
          (((cs.map escapeChar).flatten) ++ '"' :: rest)
        simp [escapeChar, h1, h2, h3, h4, h5, h6, h7, h8, parseStringBody,
          hu, hrec]
      by_cases h9 : c.toNat < 127
      · simp [escapeChar, h1, h2, h3, h4, h5, h6, h7, h8, h9,
          parseStringBody, hrec]
      by_cases h10 : c.toNat < 65536
      · have hsur := char_not_surrogate c
        have hu := parseUEscape_bmp c.toNat (by omega)
          (by rcases hsur with h | h <;> omega)
          (by rcases hsur with h | h <;> omega)
          (((cs.map escapeChar).flatten) ++ '"' :: rest)
        simp [escapeChar, h1, h2, h3, h4, h5, h6, h7, h8, h9, h10,
          parseStringBody, hu, hrec]
      · have htop := char_toNat_lt c
        have hesc : escapeChar c = '\\' :: 'u' ::
            (hex4 (55296 + (c.toNat - 65536) / 1024) ++
              ('\\' :: 'u' :: hex4 (56320 + (c.toNat - 65536) % 1024))) := by
          simp [escapeChar, h1, h2, h3, h4, h5, h6, h7, h8, h9, h10]
        rw [hesc]
        generalize hHI : 55296 + (c.toNat - 65536) / 1024 = hi
        generalize hLO : 56320 + (c.toNat - 65536) % 1024 = lo
        have hu := parseUEscape_pair hi lo (by omega) (by omega)
          (((cs.map escapeChar).flatten) ++ '"' :: rest)
        have harith : 65536 + (hi - 55296) * 1024 + (lo - 56320) = c.toNat := by
          omega
        rw [List.cons_append, List.cons_append, parseStringBody_uEscape]
        have hre : (hex4 hi ++ ('\\' :: 'u' :: hex4 lo)) ++
            ((cs.map escapeChar).flatten ++ '"' :: rest) =
            hex4 hi ++ ('\\' :: 'u' ::
              (hex4 lo ++ ((cs.map escapeChar).flatten ++ '"' :: rest))) := by
          simp
        rw [hre, hu]
        simp [hrec, harith]

/-! ### JSON lemmas: numbers and leaf values -/

theorem natToDecAux_digits (fuel : Nat) :
    ∀ n c, c ∈ natToDecAux fuel n → 48 ≤ c.toNat ∧ c.toNat ≤ 57 := by
  induction fuel with
  | zero => simp [natToDecAux]
  | succ f ih =>
      intro n c hc
      by_cases h : n < 10
      · simp [natToDecAux, h] at hc
        subst hc
        rw [charToNat_ofNat _ (Or.inl (by omega))]
        omega
      · simp only [natToDecAux, if_neg h, List.mem_append,
          List.mem_singleton] at hc
        rcases hc with hc | hc
        · exact ih _ _ hc
        · subst hc
          rw [charToNat_ofNat _ (Or.inl (by omega))]
          omega

theorem natToDecAux_ne_nil (fuel n : Nat) (h : 0 < fuel) :
    natToDecAux fuel n ≠ [] := by
  obtain ⟨f, rfl⟩ : ∃ f, fuel = f + 1 := ⟨fuel - 1, by omega⟩
  by_cases hn : n < 10 <;> simp [natToDecAux, hn]

theorem foldl_natToDecAux (fuel : Nat) :
    ∀ n acc, n < fuel →
      (natToDecAux fuel n).foldl (fun a c => a * 10 + (c.toNat - 48)) acc =
        acc * 10 ^ (natToDecAux fuel n).length + n := by
  induction fuel with
  | zero => intro n acc h; omega
  | succ f ih =>
      intro n acc h
      by_cases hn : n < 10
      · have hch := charToNat_ofNat (48 + n) (Or.inl (by omega))
        simp [natToDecAux, hn, hch]
      · simp only [natToDecAux, if_neg hn, List.foldl_append,
          List.length_append, List.length_singleton, List.foldl_cons,
          List.foldl_nil]
        rw [ih (n / 10) acc (by omega)]
        rw [charToNat_ofNat (48 + n % 10) (Or.inl (by omega))]
        rw [pow_succ]
        ring_nf
        omega

theorem parseDigits_append (ds : PyStr) :
    ∀ rest acc, (∀ c ∈ ds, isDigitChar c = true) → headNotDigit rest →
      parseDigits (ds ++ rest) acc =
        (ds.foldl (fun a c => a * 10 + (c.toNat - 48)) acc, rest) := by
  induction ds with
  | nil =>
      intro rest acc _ hrest
      cases rest with
      | nil => simp [parseDigits]
      | cons c r =>
          simp only [headNotDigit] at hrest
          simp [parseDigits, hrest]
  | cons d ds ih =>
      intro rest acc hds hrest
      have hd := hds d (List.mem_cons_self _ _)
      simp only [List.cons_append, parseDigits, hd, if_true, List.foldl_cons]
      exact ih rest _ (fun c hc => hds c (List.mem_cons_of_mem _ hc)) hrest

theorem parseNum_natToDec (n : Nat) (rest : PyStr)
    (hrest : headNotDigit rest) :
    parseNum (natToDec n ++ rest) = some (n, rest) := by
  have hne := natToDecAux_ne_nil (n + 1) n (by omega)
  have hdig := natToDecAux_digits (n + 1)
  have hfold := foldl_natToDecAux (n + 1) n 0 (by omega)
  rcases hl : natToDecAux (n + 1) n with _ | ⟨c, ds⟩
  · exact absurd hl hne
  · have hc := hdig n c (by rw [hl]; exact List.mem_cons_self _ _)
    have hcd : isDigitChar c = true := by
      simp only [isDigitChar, decide_eq_true_eq]
      omega
    have hds : ∀ x ∈ ds, isDigitChar x = true := by
      intro x hx
      have := hdig n x (by rw [hl]; exact List.mem_cons_of_mem _ hx)
      simp only [isDigitChar, decide_eq_true_eq]
      omega
    rw [hl] at hfold
    simp only [List.foldl_cons, List.length_cons] at hfold
    unfold natToDec
    rw [hl]
    simp only [List.cons_append, parseNum, hcd, if_true]
    rw [parseDigits_append ds rest _ hds hrest]
    simp only [Option.some.injEq, Prod.mk.injEq]
    refine ⟨?_, trivial⟩
    have : (0 : Nat) * 10 + (c.toNat - 48) = c.toNat - 48 := by omega
    rw [this] at hfold
    omega

theorem parseVal_str (f : Nat) (s : PyStr) (rest : PyStr) :
    parseVal (f + 1) (dumpString s ++ rest) = some (.str s, rest) := by
  simp only [dumpString, List.cons_append, List.append_assoc,
    List.singleton_append]
  simp [parseVal, skipWs]
  exact parseStringBody_escapes s _ rest (by
    have h := flatten_escape_length s
    simp only [List.length_flatten, List.map_map] at h
    omega)

theorem parseVal_num (f n : Nat) (rest : PyStr) (hrest : headNotDigit rest) :
    parseVal (f + 1) (natToDec n ++ rest) = some (.num n, rest) := by
  have hnil := natToDecAux_ne_nil (n + 1) n (by omega)
  have hdig := natToDecAux_digits (n + 1)
  have hpn := parseNum_natToDec n rest hrest
  rcases hl : natToDec n with _ | ⟨c, ds⟩
  · exact absurd (by simpa [natToDec] using hl) hnil
  · have haux : natToDecAux (n + 1) n = c :: ds := by
      simpa [natToDec] using hl
    have hc := hdig n c (by rw [haux]; exact List.mem_cons_self _ _)
    have hsp : ¬(c = ' ') := fun h => by subst h; revert hc; decide
    have h9 : ¬(c.toNat = 9) := by omega
    have h10 : ¬(c.toNat = 10) := by omega
    have h13 : ¬(c.toNat = 13) := by omega
    have hq : ¬(c = '"') := fun h => by subst h; revert hc; decide
    have hlb : ¬(c = '[') := fun h => by subst h; revert hc; decide
    have hbr : ¬(c = '\x7b') := fun h => by subst h; revert hc; decide
    have hdigc : isDigitChar c = true := by
      simp only [isDigitChar, decide_eq_true_eq]
      omega
    rw [hl] at hpn
    have hskip := skipWs_cons c (ds ++ rest) hsp h9 h10 h13
    simp [parseVal, hskip, hq, hlb, hbr, hdigc, hpn]
    rw [← List.cons_append]
    exact hpn

theorem skipWs_sp (s : PyStr) : skipWs (' ' :: s) = skipWs s := by
  simp [skipWs]

theorem parseVal_ws (f : Nat) (s : PyStr) :
    parseVal (f + 1) (' ' :: s) = parseVal (f + 1) s := by
  simp only [parseVal, skipWs_sp]

theorem parseMembers_ws (f : Nat) (s : PyStr) :
    parseMembers (f + 1) (' ' :: s) = parseMembers (f + 1) s := by
  simp only [parseMembers, skipWs_sp]

theorem parseItems_ws (f : Nat) (s : PyStr) :
    parseItems (f + 1) (' ' :: s) = parseItems (f + 1) s := by
  simp only [parseItems, skipWs_sp]

theorem parseMembers_cons_more (f : Nat) (key : PyStr) (body tail rest' : PyStr)
    (vj : Json) (ms : List (PyStr × Json))
    (hv : parseVal f (' ' :: body) = some (vj, ',' :: ' ' :: tail))
    (hm : parseMembers f (' ' :: tail) = some (ms, rest')) :
    parseMembers (f + 1) (dumpString key ++ ':' :: ' ' :: body) =
      some ((key, vj) :: ms, rest') := by
  simp only [dumpString, List.cons_append, List.append_assoc,
    List.singleton_append]
  have hkey := parseStringBody_escapes key
    ((key.map (List.length ∘ escapeChar)).sum + (body.length + 1 + 1 + 1) + 1)
    (':' :: ' ' :: body) (by
      have h := flatten_escape_length key
      simp only [List.length_flatten, List.map_map] at h
      omega)
  simp [parseMembers, skipWs, hkey, hv, hm]

theorem parseMembers_cons_last (f : Nat) (key : PyStr) (body rest' : PyStr)
    (vj : Json)
    (hv : parseVal f (' ' :: body) = some (vj, '\x7d' :: rest')) :
    parseMembers (f + 1) (dumpString key ++ ':' :: ' ' :: body) =
      some ([(key, vj)], rest') := by
  simp only [dumpString, List.cons_append, List.append_assoc,
    List.singleton_append]
  have hkey := parseStringBody_escapes key
    ((key.map (List.length ∘ escapeChar)).sum + (body.length + 1 + 1 + 1) + 1)
    (':' :: ' ' :: body) (by
      have h := flatten_escape_length key
      simp only [List.length_flatten, List.map_map] at h
      omega)
  simp [parseMembers, skipWs, hkey, hv]

theorem parseItems_nil (f : Nat) (rest : PyStr) :
    parseItems (f + 1) (']' :: rest) = some ([], rest) := by
  simp [parseItems, skipWs]

theorem parseItems_step (f : Nat) (c : Char) (s : PyStr)
    (h1 : ¬(c = ' ')) (h2 : ¬(c.toNat = 9)) (h3 : ¬(c.toNat = 10))
    (h4 : ¬(c.toNat = 13)) (h5 : ¬(c = ']')) :
    parseItems (f + 1) (c :: s) =
      match parseVal f (c :: s) with
      | none => none
      | some (v, s2) =>
          match skipWs s2 with
          | ',' :: s3 => (parseItems f s3).map fun r => (v :: r.1, r.2)
          | ']' :: s3 => some ([v], s3)
          | _ => none := by
  have hskip := skipWs_cons c s h1 h2 h3 h4
  simp only [parseItems, hskip, if_neg h5]

theorem parseVal_obj_step (f : Nat) (s : PyStr) :
    parseVal (f + 1) ('\x7b' :: s) =
      (parseMembers f s).map fun r => (Json.obj r.1, r.2) := by
  simp [parseVal, skipWs]

theorem parseVal_arr_step (f : Nat) (s : PyStr) :
    parseVal (f + 1) ('[' :: s) =
      (parseItems f s).map fun r => (Json.arr r.1, r.2) := by
  simp [parseVal, skipWs]

theorem parseVal_fileJson (g : Nat) (fd : FileDesc) (rest : PyStr) :
    parseVal (g + 5) (dumps (fileJson fd) ++ rest) =
      some (fileJson fd, rest) := by
  have e1 : dumps (fileJson fd) ++ rest = '\x7b' ::
      (dumpString "rel".data ++ ':' :: ' ' ::
        (dumpString fd.rel ++ ',' :: ' ' ::
          (dumpString "size".data ++ ':' :: ' ' ::
            (natToDec fd.size ++ ',' :: ' ' ::
              (dumpString "sha256".data ++ ':' :: ' ' ::
                (dumpString fd.sha256 ++ '\x7d' :: rest)))))) := by
    simp [dumps, dumpsMembers, fileJson]
  have hv3 : parseVal (g + 1) (' ' :: (dumpString fd.sha256 ++ '\x7d' :: rest)) =
      some (.str fd.sha256, '\x7d' :: rest) := by
    rw [parseVal_ws]
    exact parseVal_str g fd.sha256 ('\x7d' :: rest)
  have hm3 : parseMembers (g + 2) (' ' ::
      (dumpString "sha256".data ++ ':' :: ' ' ::
        (dumpString fd.sha256 ++ '\x7d' :: rest))) =
      some ([("sha256".data, .str fd.sha256)], rest) := by
    rw [parseMembers_ws]
    exact parseMembers_cons_last (g + 1) _ _ _ _ hv3
  have hv2 : parseVal (g + 2) (' ' :: (natToDec fd.size ++ ',' :: ' ' ::
      (dumpString "sha256".data ++ ':' :: ' ' ::
        (dumpString fd.sha256 ++ '\x7d' :: rest)))) =
      some (.num fd.size, ',' :: ' ' ::
        (dumpString "sha256".data ++ ':' :: ' ' ::
          (dumpString fd.sha256 ++ '\x7d' :: rest))) := by
    rw [parseVal_ws]
    exact parseVal_num (g + 1) fd.size _ (by simp [headNotDigit, isDigitChar])
  have hm2 : parseMembers (g + 3) (' ' ::
      (dumpString "size".data ++ ':' :: ' ' ::
        (natToDec fd.size ++ ',' :: ' ' ::
          (dumpString "sha256".data ++ ':' :: ' ' ::
            (dumpString fd.sha256 ++ '\x7d' :: rest))))) =
      some ([("size".data, .num fd.size), ("sha256".data, .str fd.sha256)],
        rest) := by
    rw [parseMembers_ws]
    exact parseMembers_cons_more (g + 2) _ _ _ _ _ _ hv2 hm3
  have hv1 : parseVal (g + 3) (' ' :: (dumpString fd.rel ++ ',' :: ' ' ::
      (dumpString "size".data ++ ':' :: ' ' ::
        (natToDec fd.size ++ ',' :: ' ' ::
          (dumpString "sha256".data ++ ':' :: ' ' ::
            (dumpString fd.sha256 ++ '\x7d' :: rest)))))) =
      some (.str fd.rel, ',' :: ' ' ::
        (dumpString "size".data ++ ':' :: ' ' ::
          (natToDec fd.size ++ ',' :: ' ' ::
            (dumpString "sha256".data ++ ':' :: ' ' ::
              (dumpString fd.sha256 ++ '\x7d' :: rest))))) := by
    rw [parseVal_ws]
    exact parseVal_str (g + 2) fd.rel _
  have hms : parseMembers (g + 4)
      (dumpString "rel".data ++ ':' :: ' ' ::
        (dumpString fd.rel ++ ',' :: ' ' ::
          (dumpString "size".data ++ ':' :: ' ' ::
            (natToDec fd.size ++ ',' :: ' ' ::
              (dumpString "sha256".data ++ ':' :: ' ' ::
                (dumpString fd.sha256 ++ '\x7d' :: rest)))))) =
      some ([("rel".data, .str fd.rel), ("size".data, .num fd.size),
        ("sha256".data, .str fd.sha256)], rest) :=
    parseMembers_cons_more (g + 3) _ _ _ _ _ _ hv1 hm2
  rw [e1, parseVal_obj_step, hms]
  rfl

theorem parseItems_obj_last_core (f : Nat) (s rest : PyStr) (v : Json)
    (hv : parseVal f ('\x7b' :: s) = some (v, ']' :: rest)) :
    parseItems (f + 1) ('\x7b' :: s) = some ([v], rest) := by
  rw [parseItems_step f '\x7b' s (by decide) (by decide) (by decide)
    (by decide) (by decide), hv]
  simp [skipWs]

theorem parseItems_obj_more_core (f : Nat) (s tail rest : PyStr) (v : Json)
    (vs : List Json)
    (hv : parseVal f ('\x7b' :: s) = some (v, ',' :: ' ' :: tail))
    (hrec : parseItems f (' ' :: tail) = some (vs, rest)) :
    parseItems (f + 1) ('\x7b' :: s) = some (v :: vs, rest) := by
  rw [parseItems_step f '\x7b' s (by decide) (by decide) (by decide)
    (by decide) (by decide), hv]
  simp [skipWs, hrec]

theorem parseItems_file_last (f : Nat) (fd : FileDesc) (rest : PyStr) :
    parseItems (f + 6) (dumps (fileJson fd) ++ ']' :: rest) =
      some ([fileJson fd], rest) := by
  have hv := parseVal_fileJson f fd (']' :: rest)
  have hs : dumps (fileJson fd) ++ ']' :: rest =
      '\x7b' :: ((dumpsMembers [("rel".data, .str fd.rel),
        ("size".data, .num fd.size), ("sha256".data, .str fd.sha256)] ++
        ['\x7d']) ++ ']' :: rest) := rfl
  rw [hs] at hv ⊢
  exact parseItems_obj_last_core (f + 5) _ rest (fileJson fd) hv

theorem parseItems_file_more (f : Nat) (fd : FileDesc) (tail rest : PyStr)
    (vs : List Json)
    (hrec : parseItems (f + 5) (' ' :: tail) = some (vs, rest)) :
    parseItems (f + 6) (dumps (fileJson fd) ++ ',' :: ' ' :: tail) =
      some (fileJson fd :: vs, rest) := by
  have hv := parseVal_fileJson f fd (',' :: ' ' :: tail)
  have hs : dumps (fileJson fd) ++ ',' :: ' ' :: tail =
      '\x7b' :: ((dumpsMembers [("rel".data, .str fd.rel),
        ("size".data, .num fd.size), ("sha256".data, .str fd.sha256)] ++
        ['\x7d']) ++ ',' :: ' ' :: tail) := rfl
  rw [hs] at hv ⊢
  exact parseItems_obj_more_core (f + 5) _ tail rest (fileJson fd) vs hv hrec

theorem parseItems_fileList (files : List FileDesc) (g : Nat) (rest : PyStr)
    (h : files ≠ []) :
    parseItems (g + 6 * files.length)
      (dumpsItems (files.map fileJson) ++ ']' :: rest) =
      some (files.map fileJson, rest) := by
  induction files generalizing g with
  | nil => exact absurd rfl h
  | cons f0 fs ih =>
      cases fs with
      | nil =>
          simp only [List.map_cons, List.map_nil, dumpsItems,
            List.length_cons, List.length_nil]
          have hf : g + 6 * (0 + 1) = g + 6 := by omega
          rw [hf]
          exact parseItems_file_last g f0 rest
      | cons f1 fs' =>
          simp only [List.map_cons, dumpsItems, List.length_cons]
          have hrec : parseItems ((g + 6 * (fs'.length + 1)) + 5)
              (' ' :: (dumpsItems (fileJson f1 :: fs'.map fileJson) ++
                ']' :: rest)) =
              some (fileJson f1 :: fs'.map fileJson, rest) := by
            have hf2 : (g + 6 * (fs'.length + 1)) + 5 =
                ((g + 6 * (fs'.length + 1)) + 4) + 1 := by omega
            rw [hf2, parseItems_ws]
            have := ih (g + 5) (by simp)
            simp only [List.map_cons, List.length_cons] at this
            have hf3 : ((g + 6 * (fs'.length + 1)) + 4) + 1 =
                g + 5 + 6 * (fs'.length + 1) := by omega
            rw [hf3]
            exact this
          have hstep := parseItems_file_more (g + 6 * (fs'.length + 1)) f0
            (dumpsItems (fileJson f1 :: fs'.map fileJson) ++ ']' :: rest)
            rest (fileJson f1 :: fs'.map fileJson) hrec
          have hf4 : g + 6 * (fs'.length + 1 + 1) =
              (g + 6 * (fs'.length + 1)) + 6 := by omega
          rw [hf4]
          simp only [List.cons_append, List.append_assoc]
          exact hstep

theorem parseItems_manifestFiles (files : List FileDesc) (g : Nat)
    (rest : PyStr) :
    parseItems (g + 6 * files.length + 2)
      (dumpsItems (files.map fileJson) ++ ']' :: rest) =
      some (files.map fileJson, rest) := by
  cases files with
  | nil =>
      simp only [List.map_nil, dumpsItems, List.length_nil, List.nil_append]
      have hf : g + 6 * 0 + 2 = (g + 1) + 1 := by omega
      rw [hf]
      exact parseItems_nil (g + 1) rest
  | cons f0 fs =>
      have hf : g + 6 * (f0 :: fs).length + 2 =
          (g + 2) + 6 * (f0 :: fs).length := by omega
      rw [hf]
      exact parseItems_fileList (f0 :: fs) (g + 2) rest (by simp)

theorem parseVal_manifest (g : Nat) (files : List FileDesc) (rest : PyStr) :
    parseVal (g + 6 * files.length + 6) (dumps (manifestJson files) ++ rest) =
      some (manifestJson files, rest) := by
  have e1 : dumps (manifestJson files) ++ rest =
      '\x7b' :: (dumpString "file_count".data ++ ':' :: ' ' ::
        (natToDec files.length ++ ',' :: ' ' ::
          (dumpString "files".data ++ ':' :: ' ' ::
            ('[' :: (dumpsItems (files.map fileJson) ++
              ']' :: '\x7d' :: rest))))) := by
    simp [dumps, manifestJson, dumpsMembers]
  have hv2 : parseVal (g + 6 * files.length + 3)
      (' ' :: ('[' :: (dumpsItems (files.map fileJson) ++
        ']' :: '\x7d' :: rest))) =
      some (.arr (files.map fileJson), '\x7d' :: rest) := by
    have hfA : g + 6 * files.length + 3 = (g + 6 * files.length + 2) + 1 := by
      omega
    rw [hfA, parseVal_ws, parseVal_arr_step,
      parseItems_manifestFiles files g ('\x7d' :: rest)]
    rfl
  have hm1 : parseMembers (g + 6 * files.length + 4)
      (' ' :: (dumpString "files".data ++ ':' :: ' ' ::
        ('[' :: (dumpsItems (files.map fileJson) ++
          ']' :: '\x7d' :: rest)))) =
      some ([("files".data, .arr (files.map fileJson))], rest) := by
    have hfB : g + 6 * files.length + 4 = (g + 6 * files.length + 3) + 1 := by
      omega
    rw [hfB, parseMembers_ws]
    exact parseMembers_cons_last (g + 6 * files.length + 3) _ _ _ _ hv2
  have hv1 : parseVal (g + 6 * files.length + 4)
      (' ' :: (natToDec files.length ++ ',' :: ' ' ::
        (dumpString "files".data ++ ':' :: ' ' ::
          ('[' :: (dumpsItems (files.map fileJson) ++
            ']' :: '\x7d' :: rest))))) =
      some (.num files.length, ',' :: ' ' ::
        (dumpString "files".data ++ ':' :: ' ' ::
          ('[' :: (dumpsItems (files.map fileJson) ++
            ']' :: '\x7d' :: rest)))) := by
    have hfC : g + 6 * files.length + 4 = (g + 6 * files.length + 3) + 1 := by
      omega
    rw [hfC, parseVal_ws]
    exact parseVal_num (g + 6 * files.length + 3) files.length _
      (by simp [headNotDigit, isDigitChar])
  have hms := parseMembers_cons_more (g + 6 * files.length + 4)
    "file_count".data _ _ _ _ _ hv1 hm1
  have hfD : g + 6 * files.length + 6 = (g + 6 * files.length + 5) + 1 := by
    omega
  have hfE : g + 6 * files.length + 5 = (g + 6 * files.length + 4) + 1 := by
    omega
  rw [e1, hfD, parseVal_obj_step, hfE, hms]
  rfl

theorem dumps_fileJson_len (fd : FileDesc) :
    3 ≤ (dumps (fileJson fd)).length := by
  simp [dumps, fileJson, dumpsMembers, dumpString, List.length_append]
  omega

theorem dumpsItems_files_len (files : List FileDesc) :
    3 * files.length ≤ (dumpsItems (files.map fileJson)).length := by
  induction files with
  | nil => simp [dumpsItems]
  | cons f0 fs ih =>
      cases fs with
      | nil =>
          simp only [List.map_cons, List.map_nil, dumpsItems,
            List.length_cons, List.length_nil]
          have := dumps_fileJson_len f0
          omega
      | cons f1 fs' =>
          simp only [List.map_cons, dumpsItems, List.length_cons,
            List.length_append] at *
          have := dumps_fileJson_len f0
          omega

theorem dumps_manifest_len (files : List FileDesc) :
    3 * files.length + 2 ≤ (dumps (manifestJson files)).length := by
  have h := dumpsItems_files_len files
  simp only [dumps, manifestJson, dumpsMembers, dumpString,
    List.length_append, List.length_cons]
  omega

theorem loads_manifest (files : List FileDesc) :
    loads (dumps (manifestJson files)) = some (manifestJson files) := by
  have hlen := dumps_manifest_len files
  have hg : 2 * (dumps (manifestJson files)).length + 2 =
      (2 * (dumps (manifestJson files)).length - 6 * files.length - 4) +
        6 * files.length + 6 := by omega
  simp only [loads]
  rw [hg]
  have h := parseVal_manifest
    (2 * (dumps (manifestJson files)).length - 6 * files.length - 4) files []
  rw [List.append_nil] at h
  rw [h]
  simp [skipWs]

theorem ascii_cons {c : Char} {b : PyStr} (hc : c.toNat < 128)
    (hb : ∀ d ∈ b, d.toNat < 128) : ∀ d ∈ c :: b, d.toNat < 128 := by
  intro d hd
  rcases List.mem_cons.mp hd with rfl | h
  · exact hc
  · exact hb d h

theorem ascii_append {a b : PyStr} (ha : ∀ d ∈ a, d.toNat < 128)
    (hb : ∀ d ∈ b, d.toNat < 128) : ∀ d ∈ a ++ b, d.toNat < 128 := by
  intro d hd
  rcases List.mem_append.mp hd with h | h
  · exact ha d h
  · exact hb d h

theorem hexDig_ascii (n : Nat) (h : n < 16) : (hexDig n).toNat < 128 := by
  interval_cases n <;> decide

theorem hex4_ascii (n : Nat) : ∀ d ∈ hex4 n, d.toNat < 128 := by
  intro d hd
  simp only [hex4, List.mem_cons, List.not_mem_nil, or_false] at hd
  rcases hd with rfl | rfl | rfl | rfl <;>
    exact hexDig_ascii _ (by omega)

theorem escapeChar_ascii (c : Char) : ∀ d ∈ escapeChar c, d.toNat < 128 := by
  intro d hd
  unfold escapeChar at hd
  split at hd
  · rcases List.mem_cons.mp hd with rfl | h
    · decide
    · simp at h; subst h; decide
  · split at hd
    · rcases List.mem_cons.mp hd with rfl | h
      · decide
      · simp at h; subst h; decide
    · split at hd
      · rcases List.mem_cons.mp hd with rfl | h
        · decide
        · simp at h; subst h; decide
      · split at hd
        · rcases List.mem_cons.mp hd with rfl | h
          · decide
          · simp at h; subst h; decide
        · split at hd
          · rcases List.mem_cons.mp hd with rfl | h
            · decide
            · simp at h; subst h; decide
          · split at hd
            · rcases List.mem_cons.mp hd with rfl | h
              · decide
              · simp at h; subst h; decide
            · split at hd
              · rcases List.mem_cons.mp hd with rfl | h
                · decide
                · simp at h; subst h; decide
              · split at hd
                · rcases List.mem_cons.mp hd with rfl | h
                  · decide
                  · rcases List.mem_cons.mp h with rfl | h2
                    · decide
                    · exact hex4_ascii _ d h2
                · rename_i h32 h127
                  split at hd
                  · simp at hd; subst hd; omega
                  · split at hd
                    · rcases List.mem_cons.mp hd with rfl | h
                      · decide
                      · rcases List.mem_cons.mp h with rfl | h2
                        · decide
                        · exact hex4_ascii _ d h2
                    · rcases List.mem_append.mp hd with h | h <;>
                        · rcases List.mem_cons.mp h with rfl | h'
                          · decide
                          · rcases List.mem_cons.mp h' with rfl | h2
                            · decide
                            · exact hex4_ascii _ d h2

theorem dumpString_ascii (s : PyStr) : ∀ d ∈ dumpString s, d.toNat < 128 := by
  unfold dumpString
  refine ascii_cons (by decide) (ascii_append ?_ ?_)
  · intro d hd
    obtain ⟨l, hl, hdl⟩ := List.mem_flatten.mp hd
    obtain ⟨c, _, rfl⟩ := List.mem_map.mp hl
    exact escapeChar_ascii c d hdl
  · exact ascii_cons (by decide) (by intro d hd; simp at hd)

theorem natToDec_ascii (n : Nat) : ∀ d ∈ natToDec n, d.toNat < 128 := by
  intro d hd
  have h := natToDecAux_digits (n + 1) n d hd
  omega

theorem dumps_fileJson_ascii (fd : FileDesc) :
    ∀ d ∈ dumps (fileJson fd), d.toNat < 128 := by
  have e : dumps (fileJson fd) =
      '\x7b' :: (dumpString "rel".data ++ ':' :: ' ' ::
        (dumpString fd.rel ++ ',' :: ' ' ::
          (dumpString "size".data ++ ':' :: ' ' ::
            (natToDec fd.size ++ ',' :: ' ' ::
              (dumpString "sha256".data ++ ':' :: ' ' ::
                (dumpString fd.sha256 ++ ['\x7d'])))))) := by
    simp [dumps, dumpsMembers, fileJson]
  rw [e]
  refine ascii_cons (by decide) (ascii_append (dumpString_ascii _)
    (ascii_cons (by decide) (ascii_cons (by decide)
      (ascii_append (dumpString_ascii _)
        (ascii_cons (by decide) (ascii_cons (by decide)
          (ascii_append (dumpString_ascii _)
            (ascii_cons (by decide) (ascii_cons (by decide)
              (ascii_append (natToDec_ascii _)
                (ascii_cons (by decide) (ascii_cons (by decide)
                  (ascii_append (dumpString_ascii _)
                    (ascii_cons (by decide) (ascii_cons (by decide)
                      (ascii_append (dumpString_ascii _)
                        (ascii_cons (by decide) ?_)))))))))))))))))
  intro d hd
  simp at hd

theorem dumpsItems_files_ascii (files : List FileDesc) :
    ∀ d ∈ dumpsItems (files.map fileJson), d.toNat < 128 := by
  induction files with
  | nil => intro d hd; simp [dumpsItems] at hd
  | cons f0 fs ih =>
      cases fs with
      | nil =>
          simp only [List.map_cons, List.map_nil, dumpsItems]
          exact dumps_fileJson_ascii f0
      | cons f1 fs' =>
          simp only [List.map_cons, dumpsItems] at ih ⊢
          exact ascii_append (dumps_fileJson_ascii f0)
            (ascii_cons (by decide) (ascii_cons (by decide) ih))

theorem dumps_manifest_ascii (files : List FileDesc) :
    ∀ d ∈ dumps (manifestJson files), d.toNat < 128 := by
  have e : dumps (manifestJson files) =
      '\x7b' :: (dumpString "file_count".data ++ ':' :: ' ' ::
        (natToDec files.length ++ ',' :: ' ' ::
          (dumpString "files".data ++ ':' :: ' ' ::
            ('[' :: (dumpsItems (files.map fileJson) ++
              ']' :: ['\x7d']))))) := by
    simp [dumps, manifestJson, dumpsMembers]
  rw [e]
  refine ascii_cons (by decide) (ascii_append (dumpString_ascii _)
    (ascii_cons (by decide) (ascii_cons (by decide)
      (ascii_append (natToDec_ascii _)
        (ascii_cons (by decide) (ascii_cons (by decide)
          (ascii_append (dumpString_ascii _)
            (ascii_cons (by decide) (ascii_cons (by decide)
              (ascii_cons (by decide)
                (ascii_append (dumpsItems_files_ascii files)
                  (ascii_cons (by decide)
                    (ascii_cons (by decide) ?_)))))))))))))
  intro d hd
  simp at hd

theorem utf8_roundtrip (s : PyStr) (h : ∀ d ∈ s, d.toNat < 128) :
    utf8DecodeAscii (s.map Char.toNat) = some s := by
  unfold utf8DecodeAscii
  have hb : (s.map Char.toNat).all (fun n => decide (n < 128)) = true := by
    rw [List.all_eq_true]
    intro n hn
    obtain ⟨c, hc, rfl⟩ := List.mem_map.mp hn
    exact decide_eq_true (h c hc)
  rw [if_pos hb, List.map_map]
  have : s.map (Char.ofNat ∘ Char.toNat) = s := by
    simp [Function.comp_def]
  rw [this]

theorem decodeFileApp_eq (fd : FileDesc) (h : fd.rel ≠ []) :
    decodeFileApp [("rel".data, .str fd.rel), ("size".data, .num fd.size),
      ("sha256".data, .str fd.sha256)] =
      some ⟨fd.rel, fd.size, some fd.sha256⟩ := by
  have h1 : dictGet [("rel".data, Json.str fd.rel),
      ("size".data, Json.num fd.size),
      ("sha256".data, Json.str fd.sha256)] "rel".data =
      some (Json.str fd.rel) := rfl
  have h2 : dictGet [("rel".data, Json.str fd.rel),
      ("size".data, Json.num fd.size),
      ("sha256".data, Json.str fd.sha256)] "size".data =
      some (Json.num fd.size) := rfl
  have h3 : dictGet [("rel".data, Json.str fd.rel),
      ("size".data, Json.num fd.size),
      ("sha256".data, Json.str fd.sha256)] "sha256".data =
      some (Json.str fd.sha256) := rfl
  have ht : truthy (Json.str fd.rel) = true := by
    simp [truthy, List.isEmpty_iff, h]
  unfold decodeFileApp relLookupApp sizeLookup shaLookup
  rw [h1, h2, h3]
  simp [pyOr, ht]

theorem mapM_decodeFiles (files : List FileDesc)
    (hrel : ∀ f ∈ files, f.rel ≠ []) :
    (files.map fileJson).mapM (fun x =>
        match x with
        | Json.obj f => decodeFileApp f
        | _ => none) =
      some (files.map fun f => (⟨f.rel, f.size, some f.sha256⟩ : FileInfo)) := by
  induction files with
  | nil => rfl
  | cons f0 fs ih =>
      have h0 : (fun x =>
          match x with
          | Json.obj f => decodeFileApp f
          | _ => none) (fileJson f0) =
          some (⟨f0.rel, f0.size, some f0.sha256⟩ : FileInfo) := by
        show decodeFileApp [("rel".data, .str f0.rel),
          ("size".data, .num f0.size), ("sha256".data, .str f0.sha256)] = _
        exact decodeFileApp_eq f0 (hrel f0 (by simp))
      have hih := ih (fun f hf => hrel f (List.mem_cons_of_mem _ hf))
      simp only [List.map_cons, List.mapM_cons, h0, hih]
      rfl

theorem decodeManifestApp_payload (files : List FileDesc)
    (hrel : ∀ f ∈ files, f.rel ≠ []) :
    decodeManifestApp ((dumps (manifestJson files)).map Char.toNat) =
      some (files.map fun f => (⟨f.rel, f.size, some f.sha256⟩ : FileInfo)) := by
  unfold decodeManifestApp
  rw [utf8_roundtrip _ (dumps_manifest_ascii files)]
  show (match loads (dumps (manifestJson files)) with
    | some (Json.obj fields) =>
        match dictGet fields "files".data with
        | some (.arr xs) => xs.mapM fun x =>
            match x with
            | Json.obj f => decodeFileApp f
            | _ => none
        | none => some []
        | some _ => none
    | _ => none) = _
  rw [loads_manifest files]
  have hget : dictGet [("file_count".data, Json.num files.length),
      ("files".data, Json.arr (files.map fileJson))] "files".data =
      some (Json.arr (files.map fileJson)) := rfl
  show (match dictGet [("file_count".data, Json.num files.length),
      ("files".data, Json.arr (files.map fileJson))] "files".data with
    | some (.arr xs) => xs.mapM fun x =>
        match x with
        | Json.obj f => decodeFileApp f
        | _ => none
    | none => some []
    | some _ => none) = _
  rw [hget]
  exact mapM_decodeFiles files hrel

theorem hasPrefix_append (pre s : PyStr) : hasPrefix pre (pre ++ s) = true := by
  simp [hasPrefix, List.take_left]

theorem disc_not_prefix_of_resp (X : PyStr) :
    hasPrefix discoveryPrefix (responsePrefix ++ X) = false := by
  simp only [hasPrefix, decide_eq_false_iff_not]
  intro h
  have h10 := congrArg (List.take 10) h
  rw [List.take_take,
    show min 10 discoveryPrefix.length = 10 from by decide,
    List.take_append_of_le_length (by decide)] at h10
  exact absurd h10 (by decide)

theorem parseVal_nameObj (g : Nat) (key name rest : PyStr) :
    parseVal (g + 3) (dumps (Json.obj [(key, .str name)]) ++ rest) =
      some (Json.obj [(key, .str name)], rest) := by
  have e : dumps (Json.obj [(key, .str name)]) ++ rest =
      '\x7b' :: (dumpString key ++ ':' :: ' ' ::
        (dumpString name ++ '\x7d' :: rest)) := by
    simp [dumps, dumpsMembers]
  have hv : parseVal (g + 1) (' ' :: (dumpString name ++ '\x7d' :: rest)) =
      some (.str name, '\x7d' :: rest) := by
    rw [parseVal_ws]
    exact parseVal_str g name _
  have hm := parseMembers_cons_last (g + 1) key _ _ _ hv
  have hf : g + 3 = (g + 2) + 1 := by omega
  have hf2 : g + 2 = (g + 1) + 1 := by omega
  rw [e, hf, parseVal_obj_step, hf2, hm]
  rfl

theorem dumps_nameObj_len (key name : PyStr) :
    2 ≤ (dumps (Json.obj [(key, .str name)])).length := by
  simp [dumps, dumpsMembers, dumpString, List.length_append]

theorem loads_nameObj (key name : PyStr) :
    loads (dumps (Json.obj [(key, .str name)])) =
      some (Json.obj [(key, .str name)]) := by
  have hlen := dumps_nameObj_len key name
  have hg : 2 * (dumps (Json.obj [(key, .str name)])).length + 2 =
      (2 * (dumps (Json.obj [(key, .str name)])).length - 1) + 3 := by omega
  simp only [loads]
  rw [hg]
  have h := parseVal_nameObj
    (2 * (dumps (Json.obj [(key, .str name)])).length - 1) key name []
  rw [List.append_nil] at h
  rw [h]
  simp [skipWs]


/-! ## Claim theorems (first group) -/

/-- **C5.** `add_file_hash` keeps the updated key at no more than 1000
entries, preserves the ≤ 1000 bound of every key, and appending a 1001st
entry under a key evicts exactly that key's oldest entry, keeping the most
recent 1000. -/
theorem addFileHash_cap (store : DupStore) (filePath fileHash peerIp now : PyStr)
    (hbound : ∀ k, (store k).length ≤ 1000) :
    (∀ k, ((addFileHash store filePath fileHash peerIp now) k).length ≤ 1000) ∧
    ((store (dupKey fileHash filePath)).length = 1000 →
      (addFileHash store filePath fileHash peerIp now) (dupKey fileHash filePath) =
        (store (dupKey fileHash filePath)).drop 1 ++
          [⟨filePath, fileHash, peerIp, now⟩]) := by
  constructor
  · intro k
    by_cases hk : k = dupKey fileHash filePath
    · simp only [addFileHash, if_pos hk]
      split
      · simp only [List.length_drop]
        omega
      · next hlen =>
          simp only [not_lt] at hlen
          exact hlen
    · simpa only [addFileHash, if_neg hk] using hbound k
  · intro h1000
    simp only [addFileHash, if_pos rfl]
    have hlen : (store (dupKey fileHash filePath) ++
        [(⟨filePath, fileHash, peerIp, now⟩ : DupEntry)]).length = 1001 := by
      simp [h1000]
    rw [hlen]
    have hd : (1001 : Nat) - 1000 = 1 := by norm_num
    rw [hd, List.drop_append_of_le_length (by omega)]
    simp

/-- **C5 witness.** A key holding exactly 1000 entries: the 1001st append
evicts the oldest entry of that key. -/
theorem addFileHash_cap_witness :
    (addFileHash (fun _ => List.replicate 1000 ⟨[], [], [], []⟩)
        ['a'] ['b'] ['c'] ['d']) (dupKey ['b'] ['a']) =
      List.replicate 999 (⟨[], [], [], []⟩ : DupEntry) ++
        [⟨['a'], ['b'], ['c'], ['d']⟩] := by
  have h := (addFileHash_cap (fun _ => List.replicate 1000 ⟨[], [], [], []⟩)
    ['a'] ['b'] ['c'] ['d']
    (fun _ => le_of_eq (List.length_replicate 1000 _))).2
    (List.length_replicate 1000 _)
  rw [h]
  have h999 : List.replicate 1000 (⟨[], [], [], []⟩ : DupEntry) =
      ⟨[], [], [], []⟩ :: List.replicate 999 ⟨[], [], [], []⟩ := by
    rw [show (1000 : Nat) = 999 + 1 from by norm_num, List.replicate_succ]
  rw [h999, List.drop_one, List.tail_cons]

/-- **C6.** `is_duplicate(path, hash, peer)` returns `True` exactly when
some entry under the key `hash + "_" + basename(path)` has identical hash
and identical peer; any returned record is such an entry, and on `False`
the record is `None`. -/
theorem isDuplicate_correct (store : DupStore) (filePath fileHash peerIp : PyStr) :
    ((isDuplicate store filePath fileHash peerIp).1 = true ↔
      ∃ e ∈ store (dupKey fileHash filePath),
        e.hash = fileHash ∧ e.peer = peerIp) ∧
    ((isDuplicate store filePath fileHash peerIp).1 = true →
      ∃ e, (isDuplicate store filePath fileHash peerIp).2 = some e ∧
        e ∈ store (dupKey fileHash filePath) ∧
        e.hash = fileHash ∧ e.peer = peerIp) ∧
    ((isDuplicate store filePath fileHash peerIp).1 = false →
      (isDuplicate store filePath fileHash peerIp).2 = none) := by
  unfold isDuplicate
  rcases hf : findDup fileHash peerIp (store (dupKey fileHash filePath)) with
    _ | e
  · refine ⟨?_, by simp, by simp⟩
    simp only [Bool.false_eq_true, false_iff]
    rw [findDup_eq_none] at hf
    rintro ⟨e, hmem, hh, hp⟩
    exact hf e hmem ⟨hh, hp⟩
  · rcases findDup_eq_some fileHash peerIp _ e hf with ⟨hmem, hh, hp⟩
    refine ⟨by simpa using ⟨e, hmem, hh, hp⟩, ?_, by simp⟩
    intro _
    exact ⟨e, rfl, hmem, hh, hp⟩

/-- **C10.** After every `_add_history` call the in-memory history holds at
most 2000 records, and the result is exactly the most recent 2000 of the
appended list (oldest discarded first). -/
theorem addHistory_cap {α : Type} (history : List α) (record : α) :
    (addHistory history record).length ≤ 2000 ∧
    addHistory history record =
      (history ++ [record]).drop (history.length + 1 - 2000) := by
  have hlen : (history ++ [record]).length = history.length + 1 := by simp
  unfold addHistory
  by_cases h : 2000 < (history ++ [record]).length
  · rw [if_pos h]
    refine ⟨?_, by rw [hlen]⟩
    rw [List.length_drop, hlen]
    omega
  · rw [if_neg h]
    rw [hlen] at h
    refine ⟨by rw [hlen]; omega, ?_⟩
    rw [show history.length + 1 - 2000 = 0 from by omega, List.drop_zero]

/-- **C1 (amended).** The receiver in `src/goodluck_sharing.py` strips all
directory components of the declared relative name before joining (its save
path depends only on the part after the last separator), and whenever the
resulting base name is nonempty and neither `.` nor `..` the written path
lies directly inside the destination directory. (The receiver in
`Goodluck Sharing app/goodluck_sharing.py` joins the declared name without
sanitization; see the counterexample.) -/
theorem savePathMain_sanitizes :
    (∀ dest d r, savePathMain dest (d ++ '/' :: r) = savePathMain dest r) ∧
    (∀ dest rel, basename rel ≠ [] → basename rel ≠ ['.'] →
      basename rel ≠ ['.', '.'] →
      DirectlyInside dest (savePathMain dest rel)) := by
  constructor
  · intro dest d r
    unfold savePathMain
    rw [basename_append]
  · intro dest rel h1 h2 h3
    refine ⟨basename rel, h1, basename_no_slash rel, h2, h3, ?_⟩
    unfold savePathMain
    cases hb : basename rel with
    | nil => exact absurd hb h1
    | cons c cs =>
        have hc : ¬(c = '/') := by
          intro hcc
          have := basename_no_slash rel
          rw [hb, hcc] at this
          exact this (List.mem_cons_self _ _)
        simp only [pathJoin, if_neg hc]

/-- **C1 witness.** A declared name with one directory component: the
top-level receiver reduces it to the base name and writes directly inside
the destination. -/
theorem savePathMain_sanitizes_witness :
    savePathMain ['/', 'd'] ['s', '/', 'b'] = savePathMain ['/', 'd'] ['b'] ∧
    DirectlyInside ['/', 'd'] (savePathMain ['/', 'd'] ['s', '/', 'b']) := by
  constructor
  · exact savePathMain_sanitizes.1 ['/', 'd'] ['s'] ['b']
  · exact savePathMain_sanitizes.2 ['/', 'd'] ['s', '/', 'b']
      (by decide) (by decide) (by decide)

/-- **C1 counterexample.** The receiver of
`Goodluck Sharing app/goodluck_sharing.py` joins the declared relative name
to the destination without stripping directory components: for the declared
name `sub/evil`, the written path keeps the directory component (it is not
the base-name join) and does not lie directly inside the destination. -/
theorem savePathApp_traversal :
    savePathApp ['/', 'd'] ['s', 'u', 'b', '/', 'e', 'v', 'i', 'l'] ≠
      pathJoin ['/', 'd'] (basename ['s', 'u', 'b', '/', 'e', 'v', 'i', 'l']) ∧
    ¬ DirectlyInside ['/', 'd']
      (savePathApp ['/', 'd'] ['s', 'u', 'b', '/', 'e', 'v', 'i', 'l']) := by
  constructor
  · decide
  · rintro ⟨n, hne, hns, hd1, hd2, hp⟩
    have hL : savePathApp ['/', 'd'] ['s', 'u', 'b', '/', 'e', 'v', 'i', 'l'] =
        ['/', 'd', '/', 's', 'u', 'b', '/', 'e', 'v', 'i', 'l'] := by decide
    rw [hL] at hp
    have hn : ['s', 'u', 'b', '/', 'e', 'v', 'i', 'l'] = n := by
      simpa using hp
    subst hn
    exact hns (by decide)

/-- **C2 (amended).** If the connection closes before a file's full
declared size has been read, the receive session does *not* abort: it
stops reading that file (keeping whatever bytes arrived) and still
processes every later entry of the manifest — the per-file loop always
advances `files_completed` and writes one file per manifest entry,
regardless of where the stream ends. -/
theorem processFiles_never_aborts (H : Bytes → PyStr) (now dest peer : PyStr)
    (files : List FileInfo) (st : RecvState) :
    (processFiles H now dest peer st files).processed =
      st.processed + files.length ∧
    (processFiles H now dest peer st files).written.length =
      st.written.length + files.length := by
  induction files generalizing st with
  | nil => simp [processFiles]
  | cons f fs ih =>
      have hstep : (processFile H now dest peer st f).processed =
          st.processed + 1 ∧
          (processFile H now dest peer st f).written.length =
            st.written.length + 1 := by
        rw [processFile_def]
        split <;> simp
      simp only [processFiles, List.foldl_cons] at ih ⊢
      rcases ih (processFile H now dest peer st f) with ⟨h1, h2⟩
      rcases hstep with ⟨h3, h4⟩
      refine ⟨?_, ?_⟩
      · rw [h1, h3, List.length_cons]
        omega
      · rw [h2, h4, List.length_cons]
        omega

/-- **C2 counterexample.** A manifest of two files (4 and 2 declared
bytes) over a connection that closes after delivering only 2 bytes of the
first file: the session does not treat this as terminal — it keeps the
truncated first file, proceeds to the second manifest entry, and writes it
too (as an empty file), ending with both files processed. -/
theorem recv_truncation_continues :
    ((processFiles (fun _ => ['f']) ['t'] ['d'] ['p']
        ⟨[1, 2], [], 0, fun _ => [], 0⟩
        [⟨['a'], 4, some ['0']⟩, ⟨['b'], 2, some ['0']⟩]).processed = 2) ∧
    ((processFiles (fun _ => ['f']) ['t'] ['d'] ['p']
        ⟨[1, 2], [], 0, fun _ => [], 0⟩
        [⟨['a'], 4, some ['0']⟩, ⟨['b'], 2, some ['0']⟩]).written =
      [(['d', '/', 'a'], [1, 2]), (['d', '/', 'b'], [])]) := by
  have step1 : processFile (fun _ => ['f']) ['t'] ['d'] ['p']
      ⟨[1, 2], [], 0, fun _ => [], 0⟩ ⟨['a'], 4, some ['0']⟩ =
      ⟨[], [(['d', '/', 'a'], [1, 2])], 0, fun _ => [], 1⟩ := by
    rw [processFile_def]
    rfl
  have step2 : processFile (fun _ => ['f']) ['t'] ['d'] ['p']
      ⟨[], [(['d', '/', 'a'], [1, 2])], 0, fun _ => [], 1⟩
      ⟨['b'], 2, some ['0']⟩ =
      ⟨[], [(['d', '/', 'a'], [1, 2]), (['d', '/', 'b'], [])], 0,
        fun _ => [], 2⟩ := by
    rw [processFile_def]
    rfl
  simp only [processFiles, List.foldl_cons, List.foldl_nil, step1, step2]
  exact ⟨trivial, trivial⟩

/-- **C3.** With a truthy declared digest, once the receive loop has
consumed exactly the declared byte count the computed digest is compared
case-insensitively: a match increments the verified counter and records a
DuplicateStore entry for the receiver-side save path and the peer; a
mismatch leaves counter and store untouched; in both cases the file stays
on disk and the loop advances to the next manifest entry. -/
theorem processFile_verify (H : Bytes → PyStr) (now dest peer : PyStr)
    (st : RecvState) (fi : FileInfo) (e : PyStr)
    (he : fi.sha256 = some e) (hne : e ≠ [])
    (hsize : fi.size ≤ st.stream.length) :
    ((st.stream.take fi.size).length = fi.size ∧
      (processFile H now dest peer st fi).stream = st.stream.drop fi.size) ∧
    ((H (st.stream.take fi.size)).map Char.toLower = e.map Char.toLower →
      (processFile H now dest peer st fi).verified = st.verified + 1 ∧
      (processFile H now dest peer st fi).store =
        addFileHash st.store (savePathMain dest fi.rel)
          (H (st.stream.take fi.size)) peer now ∧
      (processFile H now dest peer st fi).written =
        st.written ++ [(savePathMain dest fi.rel, st.stream.take fi.size)] ∧
      (processFile H now dest peer st fi).processed = st.processed + 1) ∧
    (¬(H (st.stream.take fi.size)).map Char.toLower = e.map Char.toLower →
      (processFile H now dest peer st fi).verified = st.verified ∧
      (processFile H now dest peer st fi).store = st.store ∧
      (processFile H now dest peer st fi).written =
        st.written ++ [(savePathMain dest fi.rel, st.stream.take fi.size)] ∧
      (processFile H now dest peer st fi).processed = st.processed + 1) := by
  have hlen : (st.stream.take fi.size).length = fi.size := by
    rw [List.length_take]
    omega
  rw [processFile_def, he]
  by_cases hmatch :
      (H (st.stream.take fi.size)).map Char.toLower = e.map Char.toLower
  · rw [if_pos ((digestMatches_some_iff _ e hne).2 hmatch)]
    exact ⟨⟨hlen, rfl⟩, fun _ => ⟨rfl, rfl, rfl, rfl⟩,
      fun hc => absurd hmatch hc⟩
  · rw [if_neg (by
      intro hd
      exact hmatch ((digestMatches_some_iff _ e hne).1 hd))]
    exact ⟨⟨hlen, rfl⟩, fun hc => absurd hc hmatch,
      fun _ => ⟨rfl, rfl, rfl, rfl⟩⟩

/-- **C3 witness.** A 2-byte file whose digest matches up to case
(`a` vs declared `A`): the verified counter becomes 1, the file is
written, and the loop advances. -/
theorem processFile_verify_witness :
    (processFile (fun _ => ['a']) ['t'] ['d'] ['p']
        ⟨[5, 6], [], 0, fun _ => [], 0⟩ ⟨['f'], 2, some ['A']⟩).verified = 1 ∧
    (processFile (fun _ => ['a']) ['t'] ['d'] ['p']
        ⟨[5, 6], [], 0, fun _ => [], 0⟩ ⟨['f'], 2, some ['A']⟩).written =
      [(['d', '/', 'f'], [5, 6])] ∧
    (processFile (fun _ => ['a']) ['t'] ['d'] ['p']
        ⟨[5, 6], [], 0, fun _ => [], 0⟩ ⟨['f'], 2, some ['A']⟩).processed = 1 := by
  have h := processFile_verify (fun _ => ['a']) ['t'] ['d'] ['p']
    ⟨[5, 6], [], 0, fun _ => [], 0⟩ ⟨['f'], 2, some ['A']⟩ ['A']
    rfl (by decide) (by decide)
  rcases h.2.1 (by decide) with ⟨hv, _, hw, hp⟩
  refine ⟨by rw [hv], ?_, by rw [hp]⟩
  rw [hw]
  decide

/-- **C7 (amended).** The receiver of `src/goodluck_sharing.py` rejects a
declared metadata length above the 10 MiB ceiling before reading the
metadata body: the result is the `tooLarge` failure for *any* remainder of
the stream, including an empty one (nothing further is read).  (The
app-revision receiver has no ceiling; see the counterexample.) -/
theorem readMetaMain_rejects (L : Nat) (rest : Bytes)
    (h32 : L < 2 ^ 32) (hbig : 10 * 1024 * 1024 < L) :
    readMetaMain (natToBe32 L ++ rest) = .error .tooLarge := by
  have hh : (natToBe32 L).length = 4 := by simp [natToBe32]
  have h1 : receiveAll 4 (natToBe32 L ++ rest) = some (natToBe32 L, rest) := by
    unfold receiveAll
    rw [if_pos (by rw [List.length_append, hh]; omega)]
    rw [List.take_append_of_le_length (by omega),
      List.drop_append_of_le_length (by omega), ← hh, List.take_length,
      List.drop_length, List.nil_append]
  unfold readMetaMain
  rw [h1]
  simp only [be32_roundtrip L h32]
  rw [if_pos hbig]

/-- **C7 witness.** A header declaring 10 MiB + 1 with no body at all is
rejected as too large (not as truncated: the body is never read). -/
theorem readMetaMain_rejects_witness :
    readMetaMain (natToBe32 (10 * 1024 * 1024 + 1)) = .error .tooLarge := by
  have h := readMetaMain_rejects (10 * 1024 * 1024 + 1) []
    (by norm_num) (by norm_num)
  simpa using h

/-- **C7 counterexample.** The receiver of
`Goodluck Sharing app/goodluck_sharing.py` applies no ceiling: a declared
metadata length of 10 MiB + 1 is passed straight to `_receive_all` and the
whole oversized body is read and returned, instead of the session failing
first. -/
theorem readMetaApp_no_ceiling :
    readMetaApp (natToBe32 (10 * 1024 * 1024 + 1) ++
        List.replicate (10 * 1024 * 1024 + 1) 48) =
      .ok (List.replicate (10 * 1024 * 1024 + 1) 48, []) := by
  have hb : natToBe32 (10 * 1024 * 1024 + 1) = [0, 160, 0, 1] := by decide
  have hbody : (List.replicate (10 * 1024 * 1024 + 1) (48 : Nat)).length =
      be32ToNat [0, 160, 0, 1] := by
    rw [List.length_replicate]
    decide
  have h := readMetaApp_ok [0, 160, 0, 1]
    (List.replicate (10 * 1024 * 1024 + 1) 48) [] rfl hbody
  rw [List.append_nil] at h
  rw [hb]
  exact h

/-- **C8 (amended).** While the pause flag is set the *send* loop moves no
bytes: any number of paused iterations leaves the sender state (bytes
sent, running total, open connection) exactly unchanged.  The *receive*
loop, however, never consults the pause flag: its step is identical for
paused and unpaused states. -/
theorem pause_semantics :
    (∀ (n : Nat) (st : SendTick), (senderTick true)^[n] st = st) ∧
    (∀ (p q : Bool) (st : RecvTick), receiverTick p st = receiverTick q st) := by
  constructor
  · intro n st
    exact Function.iterate_fixed (by simp [senderTick]) n
  · intro p q st
    rfl

/-- **C8 counterexample.** A receive-loop iteration taken while the pause
flag is set still consumes bytes: with 2 bytes pending, the reported
bytes-completed count grows from 0 to 2 during the pause window. -/
theorem pause_ignored_by_receiver :
    (receiverTick true ⟨[7, 7], 2, 0⟩).bytesCompleted = 2 ∧
    (receiverTick true ⟨[7, 7], 2, 0⟩).stream = [] := by
  decide

/-- C4: encoding a manifest whose declared names are all nonempty and then
decoding the wire bytes through the app receiver's metadata phase
reproduces the same ordered list of names, sizes and digests. -/
theorem manifest_roundtrip (files : List FileDesc) (wire : Bytes)
    (hrel : ∀ f ∈ files, f.rel ≠ [])
    (henc : encodeManifest files = some wire) :
    decodeWire wire =
      some (files.map fun f => (⟨f.rel, f.size, some f.sha256⟩ : FileInfo)) := by
  simp only [encodeManifest] at henc
  split at henc
  case isTrue hlt =>
    injection henc with henc
    subst henc
    unfold decodeWire
    have hmeta := readMetaApp_ok
      (natToBe32 ((dumps (manifestJson files)).map Char.toNat).length)
      ((dumps (manifestJson files)).map Char.toNat) []
      (by simp [natToBe32])
      (by rw [be32_roundtrip _ hlt])
    rw [List.append_nil] at hmeta
    rw [hmeta]
    exact decodeManifestApp_payload files hrel
  case isFalse => exact absurd henc (by simp)

theorem manifest_roundtrip_witness :
    (∀ f ∈ [(⟨"a".data, 1, "ff".data⟩ : FileDesc)], f.rel ≠ []) ∧
    decodeWire ((encodeManifest [(⟨"a".data, 1, "ff".data⟩ : FileDesc)]).getD
      []) = some [⟨"a".data, 1, some "ff".data⟩] :=
  ⟨by decide, manifest_roundtrip [⟨"a".data, 1, "ff".data⟩] _ (by decide) rfl⟩

theorem manifest_empty_rel_fails :
    encodeManifest [(⟨[], 0, "00".data⟩ : FileDesc)] =
      some ((encodeManifest [(⟨[], 0, "00".data⟩ : FileDesc)]).getD []) ∧
    decodeWire ((encodeManifest [(⟨[], 0, "00".data⟩ : FileDesc)]).getD []) =
      none :=
  ⟨rfl, by decide⟩


/-- C9 (amended): one step of each revision's discovery listener on a
well-formed datagram from a foreign address. -/
theorem discovery_listener_semantics (ownIp devName addr name : PyStr)
    (t : PeerTable) (h : addr ≠ ownIp) :
    handleDatagramApp ownIp devName t addr
        (discoveryPrefix ++ dumps (Json.obj [("name".data, Json.str name)])) =
      (updateTable t addr (Json.str name),
        [(addr, responsePrefix ++
          dumps (Json.obj [("name".data, Json.str devName)]))]) ∧
    handleDatagramApp ownIp devName t addr
        (responsePrefix ++ dumps (Json.obj [("name".data, Json.str name)])) =
      (updateTable t addr (Json.str name), []) ∧
    handleDatagramMain t addr
        (dumps (Json.obj [("name".data, Json.str name)])) =
      (updateTable t addr (Json.str name), []) := by
  have hload1 : loads ((discoveryPrefix ++
      dumps (Json.obj [("name".data, Json.str name)])).drop
        discoveryPrefix.length) =
      some (Json.obj [("name".data, Json.str name)]) := by
    rw [List.drop_left]
    exact loads_nameObj _ _
  have hload2 : loads ((responsePrefix ++
      dumps (Json.obj [("name".data, Json.str name)])).drop
        responsePrefix.length) =
      some (Json.obj [("name".data, Json.str name)]) := by
    rw [List.drop_left]
    exact loads_nameObj _ _
  refine ⟨?_, ?_, ?_⟩
  · simp only [handleDatagramApp, hasPrefix_append, hload1, if_true, if_neg h]
    rfl
  · simp only [handleDatagramApp, disc_not_prefix_of_resp, hasPrefix_append,
      hload2, if_true, Bool.false_eq_true, if_false, if_neg h]
    rfl
  · simp only [handleDatagramMain, loads_nameObj]
    rfl

theorem discovery_listener_semantics_witness :
    ("10.0.0.2".data ≠ "10.0.0.1".data) ∧
    (handleDatagramApp "10.0.0.1".data "me".data (fun _ => none)
        "10.0.0.2".data (discoveryPrefix ++
          dumps (Json.obj [("name".data, Json.str "peer".data)])) =
      (updateTable (fun _ => none) "10.0.0.2".data (Json.str "peer".data),
        [("10.0.0.2".data, responsePrefix ++
          dumps (Json.obj [("name".data, Json.str "me".data)]))]) ∧
    handleDatagramApp "10.0.0.1".data "me".data (fun _ => none)
        "10.0.0.2".data (responsePrefix ++
          dumps (Json.obj [("name".data, Json.str "peer".data)])) =
      (updateTable (fun _ => none) "10.0.0.2".data (Json.str "peer".data),
        []) ∧
    handleDatagramMain (fun _ => none) "10.0.0.2".data
        (dumps (Json.obj [("name".data, Json.str "peer".data)])) =
      (updateTable (fun _ => none) "10.0.0.2".data (Json.str "peer".data),
        [])) :=
  ⟨by decide, discovery_listener_semantics "10.0.0.1".data "me".data
    "10.0.0.2".data "peer".data (fun _ => none) (by decide)⟩

theorem discovery_self_response_unrecorded :
    ((handleDatagramApp "10.0.0.5".data "me".data (fun _ => none)
        "10.0.0.5".data (responsePrefix ++
          dumps (Json.obj [("name".data, Json.str "peer".data)]))).1
        "10.0.0.5".data).isNone = true ∧
    (handleDatagramApp "10.0.0.5".data "me".data (fun _ => none)
        "10.0.0.5".data (responsePrefix ++
          dumps (Json.obj [("name".data, Json.str "peer".data)]))).2 = [] :=
  ⟨by decide, by decide⟩

end GoodluckSharing
